import Mathlib

/-!
Verification of the eMMC document-ingestion pipeline (emmc-protocol-copilot).

Shallow embedding of the ingestion core:
  * `src/emmc_copilot/ingestion/chunkers/table.py`  (table pre-processing and chunking)
  * `src/emmc_copilot/ingestion/parser.py`          (table plausibility filter)
  * `src/emmc_copilot/ingestion/structure.py`       (TOC section structure, page map)
  * `src/emmc_copilot/ingestion/pipeline.py`        (page-loop state machine, post-filter)
  * `src/emmc_copilot/ingestion/chunkers/definition.py` (definition chunks)

Python strings are modelled by Lean `String`; a nullable cell `str | None` by
`Option String`; Python `len` (code points) by `String.length`.  Python's
whitespace class is modelled by `Char.isWhitespace` (ASCII whitespace; the
documents processed are ASCII-normalised by the cleanup stage).
-/

namespace EMMC

/-- Content types, mirroring `schema.ContentType`. -/
inductive ContentType
  | text
  | table
  | figure
  | bitmap
  | definition
  | register
deriving DecidableEq, Repr

/-- Section node, mirroring `structure.SectionNode`. -/
structure SNode where
  level : Nat
  title : String
  pageStart : Nat
  pageEnd : Nat
  number : String
  path : List String
  isFrontMatter : Bool := false
deriving DecidableEq, Repr

/-- Mirrors the `SectionNode.label` property: last path element as the numeric
    prefix, joined with the bare title. -/
def SNode.label (n : SNode) : String :=
  let num := n.path.getLastD ""
  if num ≠ "" ∧ n.title ≠ "" then num ++ " " ++ n.title else n.title

/-- Chunk record, mirroring `schema.EMMCChunk` (the non-derived fields).
    In the source, `chunk_id` defaults to a fresh UUID; here it is a plain
    field that the pipeline model fills from an explicit id supply. -/
structure EMMCChunk where
  chunkId : String := ""
  source : String
  version : String
  pageStart : Nat
  pageEnd : Nat
  sectionPath : List String := []
  sectionTitle : String := ""
  headingLevel : Nat := 0
  contentType : ContentType
  isFrontMatter : Bool := false
  chunkIndex : Nat := 0
  text : String
  rawText : String := ""
  tableMarkdown : Option String := none
  figureCaption : Option String := none
  term : Option String := none
  parentChunkId : Option String := none
  isRowChunk : Bool := false
deriving DecidableEq, Repr

/-- Accumulating splitter behind `pySplitWs` (current token held reversed).
    Structural recursion keeps every definition kernel-evaluable. -/
def pySplitAux : List Char → List Char → List String
  | [], cur => if cur.isEmpty then [] else [String.mk cur.reverse]
  | c :: rest, cur =>
    if c.isWhitespace then
      if cur.isEmpty then pySplitAux rest []
      else String.mk cur.reverse :: pySplitAux rest []
    else pySplitAux rest (c :: cur)

/-- Python `str.split()` with no argument: split on whitespace runs,
    dropping empty fragments. -/
def pySplitWs (s : String) : List String :=
  pySplitAux s.toList []

/-- Python `str.strip()` (ASCII whitespace; the cleanup stage normalises the
    documents to ASCII).  Char-level replacement for `String.trim`, which is
    built on byte positions and does not kernel-reduce. -/
def strTrim (s : String) : String :=
  String.mk (((s.toList.dropWhile Char.isWhitespace).reverse.dropWhile
    Char.isWhitespace).reverse)

/-- Python `str.lower()` (ASCII). -/
def strToLower (s : String) : String :=
  String.mk (s.toList.map Char.toLower)

/-- Python `str.upper()` (ASCII). -/
def strToUpper (s : String) : String :=
  String.mk (s.toList.map Char.toUpper)

namespace Table

/-- Mirrors `table._cell`: None becomes "", otherwise whitespace is collapsed
    to single spaces and the ends stripped (Python " ".join(value.split())). -/
def cell : Option String → String
  | none => ""
  | some v => " ".intercalate (pySplitWs v)

/-- Python `row[0] if row else None`, passed through `_cell`. -/
def rowCol0 (row : List (Option String)) : String :=
  cell (row.headD none)

/-- Python `sum(1 for c in row if _cell(c))`. -/
def filledCount (row : List (Option String)) : Nat :=
  (row.filter (fun c => cell c ≠ "")).length

/-- Mirrors `table._find_data_start`: index of the first row whose column 0 is
    non-empty and which has at least max(1, (col_count+1)//2) non-empty cells;
    1 when no such row exists. -/
def findDataStart (rows : List (List (Option String))) (colCount : Nat) : Nat :=
  let minFilled := max 1 ((colCount + 1) / 2)
  match rows.findIdx? (fun row =>
      rowCol0 row != "" && decide (minFilled ≤ filledCount row)) with
  | some i => i
  | none => 1

/-- Mirrors `table._merge_header_zone`: per-column buckets of non-empty header
    cell values, each bucket space-joined. -/
def mergeHeaderZone (headerRows : List (List (Option String))) (colCount : Nat) :
    List String :=
  let step := fun (buckets : List (List String)) (row : List (Option String)) =>
    let padded := (row ++ List.replicate (colCount - row.length) none).take colCount
    (buckets.zip padded).map (fun bc =>
      let t := cell bc.2
      if t = "" then bc.1 else bc.1 ++ [t])
  let buckets := headerRows.foldl step (List.replicate colCount [])
  buckets.map (fun parts => if parts.isEmpty then "" else " ".intercalate parts)

/-- Word character for the regex word boundary in `^NOTE\b`. -/
def isWordChar (c : Char) : Bool := c.isAlphanum || c == '_'

/-- Mirrors `_NOTE_ROW_RE.match`: the string starts with "NOTE"
    (case-insensitive) followed by a word boundary. -/
def isNoteStart (s : String) : Bool :=
  match s.toList with
  | c1 :: c2 :: c3 :: c4 :: rest =>
    c1.toLower == 'n' && c2.toLower == 'o' && c3.toLower == 't' && c4.toLower == 'e' &&
    (match rest with
     | [] => true
     | c :: _ => !(isWordChar c))
  | _ => false

/-- Does the char list start with "NOTE <digit>" (case-insensitive NOTE)?
    Lookahead for the substitution in `_extract_notes`. -/
def noteDigitAfter : List Char → Bool
  | n :: o :: t :: e :: sp :: d :: _ =>
    n.toLower == 'n' && o.toLower == 'o' && t.toLower == 't' && e.toLower == 'e' &&
    sp == ' ' && d.isDigit
  | _ => false

/-- Character-level model of Python
    `re.sub(r" (NOTE \d)", "\n\1", s, flags=IGNORECASE)`: every space that is
    immediately followed by "NOTE <digit>" becomes a newline.  (re.sub resumes
    scanning after each match; since no new match can begin inside the matched
    text, the char-by-char scan is equivalent.) -/
def restoreAux : List Char → List Char
  | [] => []
  | c :: rest =>
    if c == ' ' && noteDigitAfter rest then '\n' :: restoreAux rest
    else c :: restoreAux rest

/-- Mirrors the note-line-break restoration in `_extract_notes`. -/
def restoreNoteBreaks (s : String) : String :=
  String.mk (restoreAux s.toList)

/-- Note-row test from `_extract_notes`: first cell non-empty, all later cells
    empty, and the first cell begins with NOTE. -/
def isNoteRow (row : List String) : Bool :=
  match row with
  | [] => false
  | first :: rest => first != "" && rest.all (fun c => c == "") && isNoteStart first

/-- Mirrors `table._extract_notes`.  The Python loop scans from the bottom and
    breaks at the first non-note row; that is exactly `takeWhile` on the
    reversed list.  Returns (body rows, notes text in reading order). -/
def extractNotes (dataRows : List (List String)) :
    List (List String) × String :=
  let revSuffix := dataRows.reverse.takeWhile isNoteRow
  let cutoff := dataRows.length - revSuffix.length
  let noteTexts := revSuffix.map (fun row => restoreNoteBreaks (row.headD ""))
  (dataRows.take cutoff, "\n".intercalate noteTexts.reverse)

/-- One step of `table._forward_fill_key`: accumulate rows, tracking the last
    non-empty column-0 value. -/
def forwardFillStep (acc : List (List String) × String) (row : List String) :
    List (List String) × String :=
  match row with
  | [] => (acc.1 ++ [row], acc.2)
  | k :: rest =>
    if k ≠ "" then (acc.1 ++ [k :: rest], k)
    else if acc.2 ≠ "" then (acc.1 ++ [acc.2 :: rest], acc.2)
    else (acc.1 ++ [k :: rest], acc.2)

/-- Mirrors `table._forward_fill_key`. -/
def forwardFillKey (body : List (List String)) : List (List String) :=
  (body.foldl forwardFillStep ([], "")).1

/-- Python `max(len(r) for r in raw_rows)` (0 for the empty list, which the
    caller excludes). -/
def maxColCount (rows : List (List (Option String))) : Nat :=
  rows.foldl (fun m r => max m r.length) 0

/-- Mirrors `table._preprocess_table`: header-zone detection, header merge,
    body cleanup and padding, note extraction, primary-key forward-fill.
    Returns (merged header, body rows, notes text). -/
def preprocessTable (rawRows : List (List (Option String))) :
    List String × List (List String) × String :=
  match rawRows with
  | [] => ([], [], "")
  | _ =>
    let colCount := maxColCount rawRows
    let dataStart := findDataStart rawRows colCount
    let header := mergeHeaderZone (rawRows.take dataStart) colCount
    let cleanedBody := (rawRows.drop dataStart).map (fun row =>
      row.map cell ++ List.replicate (colCount - row.length) "")
    let bn := extractNotes cleanedBody
    (header, forwardFillKey bn.1, bn.2)

/-- Primary key of a body row: `row[0] if row else ""`. -/
def rowKey (row : List String) : String := row.headD ""

/-- One step of the first-occurrence key collection in `chunk_row_groups`:
    `if key not in groups: order.append(key)`. -/
def groupStep (ord : List String) (row : List String) : List String :=
  if rowKey row ∈ ord then ord else ord ++ [rowKey row]

/-- First-occurrence order of the distinct primary keys, as built by the
    `order` list in `TableChunker.chunk_row_groups`. -/
def groupOrder (body : List (List String)) : List String :=
  body.foldl groupStep []

/-- The rows of one primary-key group, as accumulated in the `groups` dict of
    `chunk_row_groups` (rows sharing a column-0 value, in body order). -/
def groupRows (body : List (List String)) (key : String) : List (List String) :=
  body.filter (fun r => rowKey r == key)

/-- The data rows of all row-group chunks taken in emission order
    (first-occurrence key order), concatenated. -/
def rowGroupUnionRows (rawRows : List (List (Option String))) : List (List String) :=
  let body := (preprocessTable rawRows).2.1
  (((groupOrder body).map (fun k => groupRows body k))).flatten

/-- The `_MAX_TABLE_CHARS` constant. -/
def maxTableChars : Nat := 6000

/-- Substring containment, Python's `pat in s`. -/
def strContains (s pat : String) : Bool :=
  decide (pat.toList <:+: s.toList)

/-- Section label or the front-matter placeholder, as in `_make_prefix` and
    `definition._make_chunk`. -/
def sectionLabelOpt : Option SNode → String
  | some s => s.label
  | none => "(front matter)"

/-- Python `section.path if section else []` and friends. -/
def sectionPathOpt : Option SNode → List String
  | some s => s.path
  | none => []

def sectionTitleOpt : Option SNode → String
  | some s => s.title
  | none => ""

def sectionLevelOpt : Option SNode → Nat
  | some s => s.level
  | none => 0

/-- Python `section.is_front_matter if section else True` from
    `TableChunker.chunk` and `chunk_row_groups`. -/
def isFrontMatterOpt : Option SNode → Bool
  | some s => s.isFrontMatter
  | none => true

/-- Mirrors `table._make_prefix`.  The caption argument stands for the result
    of `_find_caption(nearby_text)` (a regex search abstracted away because no
    claim depends on caption recognition). -/
def makePrefix (version : String) (sec : Option SNode) (page : Nat)
    (caption : String) : String :=
  let lab := sectionLabelOpt sec
  let first := "[eMMC " ++ version ++ " | " ++ lab ++ " | Page " ++ toString page ++ "]"
  let lines := if caption ≠ "" then [first, caption, ""] else [first, ""]
  "\n".intercalate lines ++ "\n"

/-- The `_row_str` helper of `_rows_to_markdown`. -/
def rowStr (cells : List String) : String :=
  "| " ++ " | ".intercalate cells ++ " |"

/-- Python `"-" * max(len(h), 3)` for one header cell. -/
def dashes (h : String) : String :=
  String.mk (List.replicate (max h.length 3) '-')

/-- Python `.rstrip("\n")`. -/
def rstripNl (s : String) : String :=
  String.mk (s.toList.reverse.dropWhile (fun c => c == '\n')).reverse

/-- Mirrors `table._rows_to_markdown`. -/
def rowsToMarkdown (rawRows : List (List (Option String))) : String :=
  let hbn := preprocessTable rawRows
  let header := hbn.1
  let body := hbn.2.1
  let notes := hbn.2.2
  if header.isEmpty then ""
  else
    let separator := header.map dashes
    let lines := [rowStr header, rowStr separator] ++ body.map rowStr
    let md := "\n".intercalate lines
    if notes ≠ "" then md ++ "\n\n**Notes:**\n" ++ notes else md

/-- Mirrors `TableChunker._make_chunk`. -/
def makeTableChunk (pfx markdown caption source version : String)
    (sec : Option SNode) (pageStart pageEnd chunkIndex : Nat)
    (isFM : Bool) : EMMCChunk :=
  { source := source
    version := version
    pageStart := pageStart
    pageEnd := pageEnd
    sectionPath := sectionPathOpt sec
    sectionTitle := sectionTitleOpt sec
    headingLevel := sectionLevelOpt sec
    contentType := ContentType.table
    isFrontMatter := isFM
    chunkIndex := chunkIndex
    text := pfx ++ markdown
    rawText := markdown
    tableMarkdown := some markdown
    figureCaption := if caption = "" then none else some caption }

/-- The header row markdown of `_split_large_table` and `chunk_row_groups`. -/
def headerMd (header : List String) : String :=
  "| " ++ " | ".intercalate header ++ " |\n"

/-- The separator row markdown of `_split_large_table` and `chunk_row_groups`. -/
def separatorMd (header : List String) : String :=
  "| " ++ " | ".intercalate (header.map dashes) ++ " |\n"

/-- Python `r[:col_count] + [""] * (col_count - len(r))`. -/
def padRow (colCount : Nat) (r : List String) : List String :=
  r.take colCount ++ List.replicate (colCount - r.length) ""

/-- The `_body_md` local of `_split_large_table`. -/
def bodyMd (colCount : Nat) (rows : List (List String)) : String :=
  String.join (rows.map (fun r => "| " ++ " | ".intercalate (padRow colCount r) ++ " |\n"))

/-- One step of the row loop in `_split_large_table`: whenever the trial
    serialisation exceeds the budget and more than one row is pending, flush
    all but the last row into a chunk. -/
def splitStep (pfxTemplate caption source version : String) (sec : Option SNode)
    (pageStart pageEnd : Nat) (isFM : Bool) (hMd sMd : String) (colCount : Nat)
    (st : List EMMCChunk × List (List String)) (dataRow : List String) :
    List EMMCChunk × List (List String) :=
  let cur := st.2 ++ [dataRow]
  let trial := hMd ++ sMd ++ bodyMd colCount cur
  if pfxTemplate.length + trial.length > maxTableChars ∧ cur.length > 1 then
    let flushRows := cur.dropLast
    let md := rstripNl (hMd ++ sMd ++ bodyMd colCount flushRows)
    (st.1 ++ [makeTableChunk pfxTemplate md caption source version sec
        pageStart pageEnd st.1.length isFM], [dataRow])
  else (st.1, cur)

/-- Mirrors `TableChunker._split_large_table`. -/
def splitLargeTable (rows : List (List (Option String)))
    (pfxTemplate caption source version : String) (sec : Option SNode)
    (pageStart pageEnd : Nat) (isFM : Bool) : List EMMCChunk :=
  let hbn := preprocessTable rows
  let header := hbn.1
  let body := hbn.2.1
  let notes := hbn.2.2
  if header.isEmpty then []
  else
    let colCount := header.length
    let hMd := headerMd header
    let sMd := separatorMd header
    let st := body.foldl
      (splitStep pfxTemplate caption source version sec pageStart pageEnd isFM hMd sMd colCount)
      ([], [])
    if st.2.isEmpty then st.1
    else
      let md0 := rstripNl (hMd ++ sMd ++ bodyMd colCount st.2)
      let md := if notes ≠ "" then md0 ++ "\n\n**Notes:**\n" ++ notes else md0
      st.1 ++ [makeTableChunk pfxTemplate md caption source version sec
        pageStart pageEnd st.1.length isFM]

/-- Mirrors `TableChunker.chunk` (full-table chunks).  `caption` stands for
    `_find_caption(nearby_text)`. -/
def tableChunk (rows : List (List (Option String)))
    (caption source version : String) (sec : Option SNode)
    (pageStart pageEnd : Nat) : List EMMCChunk :=
  if rows.isEmpty then []
  else
    let pfx := makePrefix version sec pageStart caption
    let markdown := rowsToMarkdown rows
    if strTrim markdown = "" then []
    else
      let isFM := isFrontMatterOpt sec
      if pfx.length + markdown.length ≤ maxTableChars then
        [makeTableChunk pfx markdown caption source version sec pageStart pageEnd 0 isFM]
      else
        splitLargeTable rows pfx caption source version sec pageStart pageEnd isFM

/-- The per-row markdown of `chunk_row_groups`. -/
def rowMd (colCount : Nat) (row : List String) : String :=
  "| " ++ " | ".intercalate (padRow colCount row) ++ " |\n"

/-- Mirrors `TableChunker.chunk_row_groups`: one chunk per distinct primary
    key, in first-occurrence order, each referencing the parent full-table
    chunk.  `caption` stands for `_find_caption(nearby_text)`. -/
def rowGroupChunks (rows : List (List (Option String)))
    (caption source version : String) (sec : Option SNode)
    (pageStart pageEnd : Nat) (parentChunkId : String) : List EMMCChunk :=
  if rows.isEmpty then []
  else
    let hbn := preprocessTable rows
    let header := hbn.1
    let body := hbn.2.1
    let notes := hbn.2.2
    if header.isEmpty ∨ body.isEmpty then []
    else
      let pfx := makePrefix version sec pageStart caption
      let isFM := isFrontMatterOpt sec
      let colCount := header.length
      let isRegTable := ["bit", "index", "byte", "offset"].any
        (fun kw => strContains (strToLower (header.headD "")) kw)
      let regName := if caption ≠ "" then caption else
        (match sec with
         | some s => s.title
         | none => "Register")
      let regContext := if isRegTable then "**Register Context: " ++ regName ++ "**\n\n" else ""
      let hMd := headerMd header
      let sMd := separatorMd header
      let order := groupOrder body
      order.enum.map (fun gk =>
        let groupIdx := gk.1
        let key := gk.2
        let rowsOfKey := groupRows body key
        let md0 := regContext ++
          rstripNl (hMd ++ sMd ++ String.join (rowsOfKey.map (rowMd colCount)))
        let md := if groupIdx = order.length - 1 ∧ notes ≠ "" then
            md0 ++ "\n\n**Notes:**\n" ++ notes
          else md0
        { source := source
          version := version
          pageStart := pageStart
          pageEnd := pageEnd
          sectionPath := sectionPathOpt sec
          sectionTitle := sectionTitleOpt sec
          headingLevel := sectionLevelOpt sec
          contentType := ContentType.table
          isFrontMatter := isFM
          chunkIndex := groupIdx
          text := pfx ++ md
          rawText := md
          tableMarkdown := some md
          figureCaption := if caption = "" then none else some caption
          parentChunkId := some parentChunkId
          isRowChunk := true })

end Table

namespace Parser

open Table (cell)

/-- Python `c and c.strip()` on a nullable cell: non-None and containing a
    non-whitespace character. -/
def cellFilled : Option String → Bool
  | none => false
  | some s => strTrim s != ""

/-- Python `sum(1 for c in row if c and c.strip())`. -/
def rowFilledCount (row : List (Option String)) : Nat :=
  (row.filter cellFilled).length

/-- The `_is_lone_heading_row` local of `_is_plausible_table`. -/
def isLoneHeadingRow (row : List (Option String)) : Bool :=
  rowFilledCount row == 1

/-- Mirrors `parser._is_plausible_table` (the bbox/page-width parameters are
    used only for logging in the source and are dropped here).  The float
    comparison `fill_rate < 0.40` is modelled exactly as the rational
    comparison non_empty / total < 2/5, with Python's explicit
    `fill_rate = 0` fallback for an empty cell count. -/
def isPlausibleTable (rows : List (List (Option String))) : Bool :=
  match rows with
  | [] => false
  | _ =>
    let ncols := Table.maxColCount rows
    if ncols ≤ 8 then true
    else if isLoneHeadingRow (rows.headD []) || isLoneHeadingRow (rows.getLastD []) then
      false
    else
      let totalCells := (rows.map List.length).sum
      let nonEmpty := (rows.map rowFilledCount).sum
      let lowFill := if totalCells = 0 then true
        else decide (nonEmpty * 5 < totalCells * 2)
      if lowFill then false else true

end Parser

namespace Structure

/-- Fuel-based parser for the repeated `(\.\d+)*` groups of
    `_SECTION_NUMBER_RE`: consume a dot only when at least one digit follows.
    Fuel is the remaining string length, which bounds the iteration count. -/
def parseDots : Nat → List Char → List Char × List Char
  | 0, l => ([], l)
  | fuel + 1, l =>
    match l with
    | '.' :: rest =>
      let ds := rest.takeWhile Char.isDigit
      if ds.isEmpty then ([], l)
      else
        let more := parseDots fuel (rest.drop ds.length)
        ('.' :: (ds ++ more.1), more.2)
    | _ => ([], l)

/-- Mirrors `structure._parse_section_number`: split a leading maximal
    dotted-numeric prefix from a (single-line) TOC title; return
    ("", stripped title) when the title does not start with a digit. -/
def parseSectionNumber (title : String) : String × String :=
  let t := strTrim title
  let cs := t.toList
  let ds := cs.takeWhile Char.isDigit
  if ds.isEmpty then ("", t)
  else
    let afterDigits := cs.drop ds.length
    let dots := parseDots cs.length afterDigits
    let rest := dots.2.dropWhile Char.isWhitespace
    (String.mk (ds ++ dots.1), strTrim (String.mk rest))

/-- Python `str.split(".")`, char-level (structural recursion so it
    kernel-reduces; `String.splitOn` does not). -/
def splitDotAux : List Char → List Char → List String
  | [], cur => [String.mk cur.reverse]
  | c :: rest, cur =>
    if c == '.' then String.mk cur.reverse :: splitDotAux rest []
    else splitDotAux rest (c :: cur)

/-- Mirrors `structure._build_path`: "6.10.4" becomes ["6","6.10","6.10.4"]. -/
def buildPath (number : String) : List String :=
  if number = "" then []
  else
    let parts := splitDotAux number.toList []
    (List.range parts.length).map (fun i => ".".intercalate (parts.take (i + 1)))

/-- One TOC entry `(level, title, page_start)` turned into a SectionNode, with
    `page_end` provisionally the document's last page (fixed below), as in
    `StructureExtractor._build_sections`. -/
def mkSectionNode (total : Nat) (e : Nat × String × Nat) : SNode :=
  let nb := parseSectionNumber e.2.1
  { level := e.1
    title := if nb.2 = "" then e.2.1 else nb.2
    pageStart := e.2.2
    pageEnd := total
    number := nb.1
    path := buildPath nb.1 }

/-- The page_end fix-up loop of `_build_sections`: each node ends one page
    before the first later node at the same or shallower level, floored at its
    own page_start; nodes with no such successor keep the document end. -/
def fixPageEnds : List SNode → List SNode
  | [] => []
  | n :: rest =>
    let n' := match rest.find? (fun c => decide (c.level ≤ n.level)) with
      | some c => { n with pageEnd := max n.pageStart (c.pageStart - 1) }
      | none => n
    n' :: fixPageEnds rest

/-- Mirrors `StructureExtractor._build_sections`. -/
def buildSections (toc : List (Nat × String × Nat)) (total : Nat) : List SNode :=
  fixPageEnds (toc.map (mkSectionNode total))

/-- Page coverage: `node.page_start <= page_num <= node.page_end`. -/
def coversP (n : SNode) (p : Nat) : Prop := n.pageStart ≤ p ∧ p ≤ n.pageEnd

instance (n : SNode) (p : Nat) : Decidable (coversP n p) := by
  unfold coversP; infer_instance

/-- The inner candidate comparison of `_build_page_map`: deeper level wins;
    at equal level the later (or equal) page_start wins. -/
def pickBest (p : Nat) (best : Option SNode) (node : SNode) : Option SNode :=
  if node.pageStart ≤ p ∧ p ≤ node.pageEnd then
    match best with
    | none => some node
    | some b =>
      if b.level < node.level then some node
      else if node.level = b.level then
        if b.pageStart ≤ node.pageStart then some node else some b
      else some b
  else best

/-- The per-page scan of `_build_page_map`. -/
def bestSection (nodes : List SNode) (p : Nat) : Option SNode :=
  nodes.foldl (pickBest p) none

/-- Lookup in the page→section dict built by `_build_page_map` (the dict has
    an entry for a page in 1..total_pages exactly when some node covers it). -/
def pageToSection (nodes : List SNode) (totalPages p : Nat) : Option SNode :=
  if 1 ≤ p ∧ p ≤ totalPages then bestSection nodes p else none

/-- Dominance order used to state the tie-break rule: deeper level, or equal
    level with earlier-or-equal page_start. -/
def domLE (a b : SNode) : Prop :=
  a.level < b.level ∨ (a.level = b.level ∧ a.pageStart ≤ b.pageStart)

end Structure

namespace Definition

/-- The `_DEFINITION_SECTION_TITLES` set of `definition.py`. -/
def definitionSectionTitles : List String :=
  ["definition", "abbreviation", "glossary", "terms", "terms and definitions",
   "symbols and abbreviations", "acronyms"]

/-- Mirrors `definition._is_definition_section`. -/
def isDefinitionSection (title : String) : Bool :=
  definitionSectionTitles.contains (strToLower (strTrim title))

/-- Mirrors `DefinitionChunker._make_chunk`: note `is_front_matter=False`
    unconditionally ("definitions are always searchable"). -/
def makeDefChunk (term definition source version : String) (sec : Option SNode)
    (pageStart pageEnd chunkIndex : Nat) : EMMCChunk :=
  let lab := Table.sectionLabelOpt sec
  let raw := term ++ ": " ++ definition
  { source := source
    version := version
    pageStart := pageStart
    pageEnd := pageEnd
    sectionPath := Table.sectionPathOpt sec
    sectionTitle := Table.sectionTitleOpt sec
    headingLevel := Table.sectionLevelOpt sec
    contentType := ContentType.definition
    isFrontMatter := false
    chunkIndex := chunkIndex
    text := "[eMMC " ++ version ++ " | " ++ lab ++ " | Page " ++
      toString pageStart ++ "]\n" ++ raw
    rawText := raw
    term := some term }

/-- Mirrors `DefinitionChunker.extract_from_section` (Round 1).  The two
    regex matchers (`_ABBREV_RE`, `_NUMBERED_RE` finditer group pairs) are
    abstracted as function parameters: the claims here are independent of
    which (term, definition) pairs the regexes yield. -/
def extractFromSection (abbrevMatches numberedMatches : String → List (String × String))
    (sectionText : String) (sec : SNode) (source version : String)
    (pageStart pageEnd : Nat) : List EMMCChunk :=
  if ¬ isDefinitionSection sec.title then []
  else
    let abbrevChunks := (abbrevMatches sectionText).enum.map (fun im =>
      makeDefChunk (strTrim im.2.1) (strTrim im.2.2) source version (some sec) pageStart pageEnd im.1)
    if ¬ abbrevChunks.isEmpty then abbrevChunks
    else
      (numberedMatches sectionText).enum.map (fun im =>
        makeDefChunk (strTrim im.2.1) (strTrim im.2.2) source version (some sec) pageStart pageEnd im.1)

/-- One match handled by `extract_inline`: skip terms already seen (by
    lower-cased stripped term), otherwise append a chunk and record the term. -/
def inlineStep (source version : String) (sec : Option SNode) (pageStart : Nat)
    (st : List EMMCChunk × List String) (td : String × String) :
    List EMMCChunk × List String :=
  let term := strTrim td.1
  if st.2.contains (strToLower term) then st
  else
    (st.1 ++ [makeDefChunk term (strTrim td.2) source version sec pageStart pageStart st.1.length],
     st.2 ++ [strToLower term])

/-- Mirrors `DefinitionChunker.extract_inline` (Round 2), with the inline
    regex pattern list abstracted as matcher functions. -/
def extractInline (patterns : List (String → List (String × String)))
    (fullText source version : String) (pageToSec : Nat → Option SNode)
    (pageStart : Nat) : List EMMCChunk :=
  let sec := pageToSec pageStart
  (((patterns.map (fun p => p fullText)).flatten).foldl
    (inlineStep source version sec pageStart) ([], [])).1

end Definition

namespace Pipeline

/-- The `_MIN_RAW_CHARS_BY_TYPE` table (every content type has an entry, so
    the Python `.get(..., 30)` default is never consulted). -/
def minRawChars : ContentType → Nat
  | ContentType.text => 20
  | ContentType.table => 80
  | ContentType.figure => 30
  | ContentType.bitmap => 30
  | ContentType.definition => 8
  | ContentType.register => 40

/-- The `_MIN_RAW_CHARS_ROW_CHUNK` constant. -/
def minRawCharsRowChunk : Nat := 25

/-- Mirrors `pipeline._is_valid_chunk`.  The `_NOISE_PATTERNS` regex test is
    abstracted as the `noise` parameter: the claims settled here hold for
    every noise predicate. -/
def isValidChunk (noise : String → Bool) (c : EMMCChunk) : Bool :=
  let content := strTrim c.rawText
  let minChars := if c.isRowChunk then minRawCharsRowChunk else minRawChars c.contentType
  if content.length < minChars then false
  else if noise content then false
  else true

/-- The register-map-section test in `IngestionResult.searchable_chunks`. -/
def isRegSection (c : EMMCChunk) : Bool :=
  ["CSD", "CID", "DSR", "OCR", "EXT_CSD"].any
    (fun kw => Table.strContains (strToUpper c.sectionTitle) kw)

/-- Mirrors `IngestionResult.searchable_chunks`: drop front matter; drop
    full-table chunks outside register-map sections; drop invalid chunks. -/
def searchableChunks (noise : String → Bool) (chunks : List EMMCChunk) :
    List EMMCChunk :=
  chunks.filter (fun c =>
    if c.isFrontMatter then false
    else if c.contentType = ContentType.table ∧ ¬ c.isRowChunk then
      if ¬ isRegSection c then false else isValidChunk noise c
    else isValidChunk noise c)

/-- A classified block, mirroring `classifier.ClassifiedBlock`.  Figure and
    bitmap payloads (drawing clusters / image blocks) are opaque values of
    type α here; the pipeline only forwards them to the figure chunker. -/
structure CBlock (α : Type) where
  contentType : ContentType
  textBlock : Option String := none
  tableBlock : Option (List (List (Option String))) := none
  figPayload : Option α := none
  imgPayload : Option α := none

/-- One parsed page as consumed by the pipeline loop: its 1-indexed number,
    the page_raw_text used for caption lookup, and its classified blocks in
    top-to-bottom order. -/
structure PageIn (α : Type) where
  pageNum : Nat
  rawText : String
  blocks : List (CBlock α)

/-- The pipeline's fixed collaborators for one run, mirroring the objects
    `IngestionPipeline.run` consults: the document structure (sections list,
    page→section map, insertion-ordered label→section map), `_normalize_label`,
    `_find_caption`, and the text / figure / definition chunkers.  Chunkers and
    regex helpers are deterministic functions; they are parameters because the
    claims proved on this machine hold for every instantiation. -/
structure PipeEnv (α : Type) where
  source : String
  version : String
  sections : List SNode
  pageToSec : Nat → Option SNode
  labelList : List (String × SNode)
  normalize : String → String
  findCaption : String → String
  textChunkSection : String → Option SNode → Nat → Nat → ContentType → List EMMCChunk
  figChunk : α → Nat → Option SNode → Option EMMCChunk
  bmpChunk : α → Nat → Option SNode → Option EMMCChunk
  abbrevMatches : String → List (String × String)
  numberedMatches : String → List (String × String)

/-- The cross-page state threaded through `IngestionPipeline.run`'s page
    loop, plus the output chunk list and the id counter for the id supply. -/
@[ext]
structure PipeState where
  allChunks : List EMMCChunk
  idCounter : Nat
  sectionTexts : List (Nat × String)
  textAccumulator : List String
  textCtype : ContentType
  currentSection : Option SNode
  accumPageStart : Nat
  accumPageEnd : Nat
deriving Repr

/-- Initial state of one run. -/
def initState : PipeState :=
  { allChunks := []
    idCounter := 0
    sectionTexts := []
    textAccumulator := []
    textCtype := ContentType.text
    currentSection := none
    accumPageStart := 1
    accumPageEnd := 1 }

/-- Draw one fresh id per chunk from the supply (modelling the per-chunk
    `uuid.uuid4()` default of `EMMCChunk.chunk_id`). -/
def assignIds (ids : Nat → String) (counter : Nat) (cs : List EMMCChunk) :
    List EMMCChunk × Nat :=
  (cs.enum.map (fun ic => { ic.2 with chunkId := ids (counter + ic.1) }),
   counter + cs.length)

/-- Append freshly id-ed chunks to the output. -/
def appendChunks (ids : Nat → String) (s : PipeState) (cs : List EMMCChunk) :
    PipeState :=
  let ac := assignIds ids s.idCounter cs
  { s with allChunks := s.allChunks ++ ac.1, idCounter := ac.2 }

/-- Mirrors the `_flush_text` closure: a no-op on an empty accumulator,
    otherwise hand the newline-joined buffer to the text chunker and clear. -/
def flushText {α : Type} (env : PipeEnv α) (ids : Nat → String) (s : PipeState) :
    PipeState :=
  if s.textAccumulator.isEmpty then s
  else
    let combined := "\n".intercalate s.textAccumulator
    let newChunks := env.textChunkSection combined s.currentSection
      s.accumPageStart s.accumPageEnd s.textCtype
    { appendChunks ids s newChunks with textAccumulator := [] }

/-- Sub-page label resolution from the run loop: exact label lookup, then the
    prefix-match fallback (label is a proper prefix followed by a space, tab,
    or newline). -/
def resolveLabel (labelList : List (String × SNode)) (norm : String) :
    Option SNode :=
  match labelList.find? (fun ls => ls.1 == norm) with
  | some ls => some ls.2
  | none =>
    match labelList.find? (fun ls =>
        decide (ls.1.length < norm.length) && ls.1.toList.isPrefixOf norm.toList &&
        (match norm.toList.drop ls.1.length with
         | c :: _ => c == ' ' || c == '\n' || c == '\t'
         | [] => false)) with
    | some ls => some ls.2
    | none => none

/-- Step 1 of the run loop body: sub-page section detection (TEXT blocks
    only).  The source compares sections with `is not` (object identity);
    sections originate from the single `structure.sections` list, so identity
    coincides with the structural equality used here. -/
def subPageDetect {α : Type} (env : PipeEnv α) (ids : Nat → String)
    (pageNum : Nat) (s : PipeState) (cb : CBlock α) : PipeState :=
  match cb.textBlock with
  | some t =>
    if cb.contentType = ContentType.text then
      match resolveLabel env.labelList (env.normalize t) with
      | some hit =>
        if s.currentSection ≠ some hit then
          let s' := if s.textAccumulator.isEmpty then s else flushText env ids s
          { s' with currentSection := some hit, accumPageStart := pageNum }
        else s
      | none => s
    else s
  | none => s

/-- Step 2 of the run loop body: bucket the block's text for the Round-1
    definition pass, keyed by the current section's page_start. -/
def bucketText (s : PipeState) (cb : CBlock α) : PipeState :=
  match cb.textBlock with
  | some t =>
    match s.currentSection with
    | some sec =>
      if ¬ sec.isFrontMatter then
        { s with sectionTexts := s.sectionTexts ++ [(sec.pageStart, t)] }
      else s
    | none => s
  | none => s

/-- Step 3 of the run loop body: route the block to its chunker.  TEXT and
    REGISTER accumulate (flushing on a content-type switch); TABLE, FIGURE,
    BITMAP always flush first; DEFINITION blocks pass (handled in Round 1). -/
def routeBlock {α : Type} (env : PipeEnv α) (ids : Nat → String)
    (pageNum : Nat) (pageRawText : String) (s2 : PipeState) (cb : CBlock α) :
    PipeState :=
  match cb.contentType with
  | ContentType.text | ContentType.register =>
    let s3 := if ¬ s2.textAccumulator.isEmpty ∧ cb.contentType ≠ s2.textCtype then
        flushText env ids s2
      else s2
    let s4 := { s3 with textCtype := cb.contentType }
    (match cb.textBlock with
     | some t =>
       let s5 := if s4.textAccumulator.isEmpty then
           { s4 with accumPageStart := pageNum }
         else s4
       { s5 with textAccumulator := s5.textAccumulator ++ [t], accumPageEnd := pageNum }
     | none => s4)
  | ContentType.table =>
    let s3 := flushText env ids s2
    (match cb.tableBlock with
     | some rows =>
       let caption := env.findCaption pageRawText
       let tcs := Table.tableChunk rows caption env.source env.version
         s3.currentSection pageNum pageNum
       let ac := assignIds ids s3.idCounter tcs
       let s4 := { s3 with allChunks := s3.allChunks ++ ac.1, idCounter := ac.2 }
       (match ac.1 with
        | [] => s4
        | c0 :: _ =>
          let rcs := Table.rowGroupChunks rows caption env.source env.version
            s4.currentSection pageNum pageNum c0.chunkId
          appendChunks ids s4 rcs)
     | none => s3)
  | ContentType.figure =>
    let s3 := flushText env ids s2
    (match cb.figPayload with
     | some p =>
       (match env.figChunk p pageNum s3.currentSection with
        | some c => appendChunks ids s3 [c]
        | none => s3)
     | none => s3)
  | ContentType.bitmap =>
    let s3 := flushText env ids s2
    (match cb.imgPayload with
     | some p =>
       (match env.bmpChunk p pageNum s3.currentSection with
        | some c => appendChunks ids s3 [c]
        | none => s3)
     | none => s3)
  | ContentType.definition => s2

/-- One classified block processed by the run loop body: Steps 1, 2, 3 in
    order. -/
def processBlock {α : Type} (env : PipeEnv α) (ids : Nat → String)
    (pageNum : Nat) (pageRawText : String) (s : PipeState) (cb : CBlock α) :
    PipeState :=
  routeBlock env ids pageNum pageRawText
    (bucketText (subPageDetect env ids pageNum s cb) cb) cb

/-- The page-level section boundary at the top of the page loop: when the
    TOC-resolved section differs, flush any accumulated text and switch.
    Nothing here flushes merely because the previous page ended. -/
def pageEnter {α : Type} (env : PipeEnv α) (ids : Nat → String) (s : PipeState)
    (pageNum : Nat) : PipeState :=
  let tocSec := env.pageToSec pageNum
  if tocSec ≠ s.currentSection then
    let s' := if s.textAccumulator.isEmpty then s else flushText env ids s
    { s' with currentSection := tocSec }
  else s

/-- One iteration of the page loop. -/
def processPage {α : Type} (env : PipeEnv α) (ids : Nat → String) (s : PipeState)
    (page : PageIn α) : PipeState :=
  let s' := pageEnter env ids s page.pageNum
  page.blocks.foldl (processBlock env ids page.pageNum page.rawText) s'

/-- One section of the Round-1 definition pass. -/
def round1Step {α : Type} (env : PipeEnv α) (ids : Nat → String)
    (st : PipeState) (sec : SNode) : PipeState :=
  if ¬ sec.isFrontMatter then
    let texts := (st.sectionTexts.filter (fun pt => pt.1 == sec.pageStart)).map
      (fun pt => pt.2)
    let dcs := Definition.extractFromSection env.abbrevMatches env.numberedMatches
      (" \n".intercalate texts) sec env.source env.version sec.pageStart sec.pageEnd
    appendChunks ids st dcs
  else st

/-- The Round-1 definition pass run after the page loop: one call per
    non-front-matter section over its accumulated text bucket. -/
def round1Definitions {α : Type} (env : PipeEnv α) (ids : Nat → String)
    (s : PipeState) : PipeState :=
  env.sections.foldl (round1Step env ids) s

/-- Mirrors `IngestionPipeline.run` after parsing: page loop, final flush,
    Round-1 definitions; returns the full chunk list. -/
def runPipeline {α : Type} (env : PipeEnv α) (ids : Nat → String)
    (pages : List (PageIn α)) : List EMMCChunk :=
  let s := pages.foldl (processPage env ids) initState
  let s' := flushText env ids s
  (round1Definitions env ids s').allChunks

/-- Erase the id-valued fields (chunk_id, and the parent reference, which
    stores the parent's chunk_id). -/
def eraseId (c : EMMCChunk) : EMMCChunk :=
  { c with chunkId := "", parentChunkId := none }

/-- Erase ids throughout a state. -/
def eraseState (s : PipeState) : PipeState :=
  { s with allChunks := s.allChunks.map eraseId }

/-- Two pipeline states that agree on everything except the id-valued chunk
    fields: same control state, and chunk lists equal after id erasure. -/
def SimState (s1 s2 : PipeState) : Prop :=
  s1.allChunks.map eraseId = s2.allChunks.map eraseId ∧
  s1.idCounter = s2.idCounter ∧
  s1.sectionTexts = s2.sectionTexts ∧
  s1.textAccumulator = s2.textAccumulator ∧
  s1.textCtype = s2.textCtype ∧
  s1.currentSection = s2.currentSection ∧
  s1.accumPageStart = s2.accumPageStart ∧
  s1.accumPageEnd = s2.accumPageEnd

end Pipeline

namespace Scenario

/-- The header-merge scenario's raw rows from the spec (C3). -/
def c3rows : List (List (Option String)) :=
  [[some "CMD", some "", some "", some "", some "", some ""],
   [none, some "Type", some "Argument", some "Resp", some "Abbr", some "Desc"],
   [some "INDEX", none, none, none, none, none],
   [some "CMD0", some "bc", some "0x0", some "R1", some "GO_IDLE", some "reset"]]

/-- A table whose primary-key values recur non-contiguously: the header row
    has an empty key cell, the data rows carry keys A, B, A. -/
def c1rows : List (List (Option String)) :=
  [[none, some "Desc"],
   [some "A", some "1"],
   [some "B", some "2"],
   [some "A", some "3"]]

/-- The section tie-break scenario's table of contents from the spec (C2). -/
def scenarioToc : List (Nat × String × Nat) :=
  [(1, "1 Scope", 22), (1, "2 Normative references", 22),
   (1, "3 Terms and definitions", 22), (1, "4 General", 23)]

/-- A sample section node used for concrete pipeline-state witnesses. -/
def sampleSection : SNode :=
  { level := 1
    title := "General"
    pageStart := 1
    pageEnd := 5
    number := "4"
    path := ["4"]
    isFrontMatter := false }

/-- A pipeline state mid-run: one accumulated text line (a list item without
    terminal punctuation) inside `sampleSection`, nothing emitted yet. -/
def sampleState : Pipeline.PipeState :=
  { allChunks := []
    idCounter := 0
    sectionTexts := []
    textAccumulator := ["o Sub-item one"]
    textCtype := ContentType.text
    currentSection := some sampleSection
    accumPageStart := 1
    accumPageEnd := 1 }

/-- A trivial pipeline environment over Unit payloads, used for concrete
    witnesses of the state-machine theorems. -/
def trivialEnv : Pipeline.PipeEnv Unit :=
  { source := "JESD84-B51.pdf"
    version := "5.1"
    sections := []
    pageToSec := fun _ => some sampleSection
    labelList := []
    normalize := fun t => t
    findCaption := fun _ => ""
    textChunkSection := fun _ _ _ _ _ => []
    figChunk := fun _ _ _ => none
    bmpChunk := fun _ _ _ => none
    abbrevMatches := fun _ => []
    numberedMatches := fun _ => [] }

end Scenario

/-! ## Helper lemmas -/

theorem maxColCount_le_sum (rows : List (List (Option String))) :
    Table.maxColCount rows ≤ (rows.map List.length).sum := by
  have haux : ∀ (l : List (List (Option String))) (acc : Nat),
      l.foldl (fun m r => max m r.length) acc ≤ acc + (l.map List.length).sum := by
    intro l
    induction l with
    | nil => intro acc; simp
    | cons a l ih =>
      intro acc
      calc (a :: l).foldl (fun m r => max m r.length) acc
          = l.foldl (fun m r => max m r.length) (max acc a.length) := by simp [List.foldl_cons]
        _ ≤ max acc a.length + (l.map List.length).sum := ih _
        _ ≤ acc + ((a :: l).map List.length).sum := by
            simp [List.map_cons, List.sum_cons]; omega
  simpa [Table.maxColCount] using haux rows 0

/-! ## Claim theorems and witnesses -/

/-- C3: on the spec's header-merge scenario rows, the data starts at row 3
    (so the header zone spans the first three rows), the merged header is
    ["CMD INDEX", "Type", "Argument", "Resp", "Abbr", "Desc"], and exactly
    one data row remains. -/
theorem c3_header_merge_scenario :
    Table.findDataStart Scenario.c3rows 6 = 3 ∧
    Table.maxColCount Scenario.c3rows = 6 ∧
    (Table.preprocessTable Scenario.c3rows).1 =
      ["CMD INDEX", "Type", "Argument", "Resp", "Abbr", "Desc"] ∧
    (Table.preprocessTable Scenario.c3rows).2.1 =
      [["CMD0", "bc", "0x0", "R1", "GO_IDLE", "reset"]] := by
  decide

theorem fixPageEnds_ge (l : List SNode)
    (h : ∀ n ∈ l, n.pageStart ≤ n.pageEnd) :
    ∀ n ∈ Structure.fixPageEnds l, n.pageStart ≤ n.pageEnd := by
  induction l with
  | nil => simp [Structure.fixPageEnds]
  | cons a l ih =>
    intro n hn
    simp only [Structure.fixPageEnds] at hn
    rcases List.mem_cons.mp hn with h1 | h2
    · subst h1
      cases hfind : l.find? (fun c => decide (c.level ≤ a.level)) with
      | some c => simp [hfind]
      | none => simpa [hfind] using h a (List.mem_cons_self a l)
    · exact ih (fun m hm => h m (List.mem_cons_of_mem _ hm)) n h2

/-- C8 (amended): whenever every TOC entry's page number is at most the
    document's total page count, every node produced by `_build_sections`
    satisfies page_start ≤ page_end. -/
theorem c8_page_end_ge_start (toc : List (Nat × String × Nat)) (total : Nat)
    (h : ∀ e ∈ toc, e.2.2 ≤ total) :
    ∀ n ∈ Structure.buildSections toc total, n.pageStart ≤ n.pageEnd := by
  apply fixPageEnds_ge
  intro n hn
  rcases List.mem_map.mp hn with ⟨e, he, rfl⟩
  simpa [Structure.mkSectionNode] using h e he

/-- C8 counterexample: for a table of contents whose (only) entry starts past
    the claimed total page count, `_build_sections` leaves page_end (the
    document's last page) strictly below page_start, so the claim as stated
    over every table of contents input fails. -/
theorem c8_page_end_counterexample :
    ∃ n ∈ Structure.buildSections [(1, "A", 5)] 3, n.pageEnd < n.pageStart := by
  decide

/-- Witness for C8 (amended): instantiated on the tie-break scenario TOC. -/
theorem c8_page_end_ge_start_witness :
    ((Structure.buildSections Scenario.scenarioToc 30).headD
        { level := 0, title := "", pageStart := 1, pageEnd := 0, number := "", path := [] }).pageStart ≤
      ((Structure.buildSections Scenario.scenarioToc 30).headD
        { level := 0, title := "", pageStart := 1, pageEnd := 0, number := "", path := [] }).pageEnd :=
  c8_page_end_ge_start Scenario.scenarioToc 30 (by decide) _ (by decide)

/-- C5: for a non-empty candidate table, the plausibility filter accepts
    exactly when the table has at most 8 columns, or otherwise when neither
    the first nor the last row has exactly one non-empty cell and the overall
    cell fill rate is at least 40 percent. -/
theorem c5_plausibility_filter (rows : List (List (Option String)))
    (h : rows ≠ []) :
    Parser.isPlausibleTable rows = true ↔
      (Table.maxColCount rows ≤ 8 ∨
        (Parser.rowFilledCount (rows.headD []) ≠ 1 ∧
         Parser.rowFilledCount (rows.getLastD []) ≠ 1 ∧
         2 * (rows.map List.length).sum ≤ 5 * (rows.map Parser.rowFilledCount).sum)) := by
  obtain ⟨a, l, rfl⟩ := List.exists_cons_of_ne_nil h
  have hsum : Table.maxColCount (a :: l) ≤ ((a :: l).map List.length).sum :=
    maxColCount_le_sum _
  simp only [Parser.isPlausibleTable]
  by_cases h8 : Table.maxColCount (a :: l) ≤ 8
  · rw [if_pos h8]; simp [h8]
  · rw [if_neg h8]
    have h9 : 9 ≤ ((a :: l).map List.length).sum := by omega
    have htot : ¬ (((a :: l).map List.length).sum = 0) := by omega
    rw [if_neg htot]
    by_cases hlone : (Parser.isLoneHeadingRow ((a :: l).headD []) ||
        Parser.isLoneHeadingRow ((a :: l).getLastD [])) = true
    · rw [if_pos hlone]
      simp only [Bool.or_eq_true, Parser.isLoneHeadingRow, beq_iff_eq] at hlone
      constructor
      · intro hc; exact (Bool.false_ne_true hc).elim
      · rintro (hc | ⟨hf, hl, -⟩)
        · exact absurd hc h8
        · rcases hlone with h1 | h1
          · exact absurd h1 hf
          · exact absurd h1 hl
    · rw [if_neg hlone]
      simp only [Bool.or_eq_true, Parser.isLoneHeadingRow, beq_iff_eq, not_or] at hlone
      by_cases hdec : ((a :: l).map Parser.rowFilledCount).sum * 5 <
          ((a :: l).map List.length).sum * 2
      · rw [if_pos (decide_eq_true hdec)]
        constructor
        · intro hc; exact (Bool.false_ne_true hc).elim
        · rintro (hc | ⟨-, -, hge⟩)
          · exact absurd hc h8
          · omega
      · rw [if_neg (by simpa using hdec)]
        exact ⟨fun _ => Or.inr ⟨hlone.1, hlone.2, by omega⟩, fun _ => rfl⟩

/-- C4 counterexample: the row ["", "NOTE 1"]'s only non-empty cell begins
    with NOTE and its remaining cells are empty, yet `_extract_notes` does not
    peel it (the scan tests only the FIRST cell), so the claim as stated
    fails: the row stays in the body and no notes text is produced. -/
theorem c4_note_extraction_counterexample :
    (Table.extractNotes [["", "NOTE 1"]]).1 = [["", "NOTE 1"]] ∧
    (Table.extractNotes [["", "NOTE 1"]]).2 = "" ∧
    (["", "NOTE 1"].filter (fun c => c ≠ "")) = ["NOTE 1"] ∧
    Table.isNoteStart "NOTE 1" = true := by
  decide

theorem extractNotes_split (rows : List (List String)) :
    (Table.extractNotes rows).1 =
      (rows.reverse.dropWhile Table.isNoteRow).reverse ∧
    rows = (rows.reverse.dropWhile Table.isNoteRow).reverse ++
      (rows.reverse.takeWhile Table.isNoteRow).reverse := by
  have hsplit : rows.reverse.takeWhile Table.isNoteRow ++
      rows.reverse.dropWhile Table.isNoteRow = rows.reverse :=
    List.takeWhile_append_dropWhile _ _
  have hrows : rows = (rows.reverse.dropWhile Table.isNoteRow).reverse ++
      (rows.reverse.takeWhile Table.isNoteRow).reverse := by
    conv_lhs => rw [← List.reverse_reverse rows, ← hsplit]
    rw [List.reverse_append]
  have h3 : (rows.reverse.takeWhile Table.isNoteRow).length +
      (rows.reverse.dropWhile Table.isNoteRow).length = rows.length := by
    have h4 := congrArg List.length hsplit
    rwa [List.length_append, List.length_reverse] at h4
  refine ⟨?_, hrows⟩
  show rows.take (rows.length - (rows.reverse.takeWhile Table.isNoteRow).length) =
    (rows.reverse.dropWhile Table.isNoteRow).reverse
  have hcut : rows.length - (rows.reverse.takeWhile Table.isNoteRow).length =
      (rows.reverse.dropWhile Table.isNoteRow).reverse.length := by
    rw [List.length_reverse]
    omega
  rw [hcut]
  calc rows.take (rows.reverse.dropWhile Table.isNoteRow).reverse.length
      = ((rows.reverse.dropWhile Table.isNoteRow).reverse ++
          (rows.reverse.takeWhile Table.isNoteRow).reverse).take
          (rows.reverse.dropWhile Table.isNoteRow).reverse.length := by
        rw [← hrows]
    _ = (rows.reverse.dropWhile Table.isNoteRow).reverse := List.take_left _ _

/-- C4 (amended): `_extract_notes` peels exactly the maximal bottom suffix of
    rows whose FIRST cell is non-empty and begins with NOTE while all later
    cells are empty; the peeled rows are removed from the body, and the notes
    text is their restored texts joined by newlines in reading order. -/
theorem c4_note_extraction (rows : List (List String)) :
    ∃ peeled : List (List String),
      rows = (Table.extractNotes rows).1 ++ peeled ∧
      (∀ r ∈ peeled, Table.isNoteRow r = true) ∧
      (∀ r, (Table.extractNotes rows).1.getLast? = some r →
        Table.isNoteRow r = false) ∧
      (Table.extractNotes rows).2 =
        "\n".intercalate (peeled.map (fun r => Table.restoreNoteBreaks (r.headD ""))) := by
  obtain ⟨hbody, hrows⟩ := extractNotes_split rows
  refine ⟨(rows.reverse.takeWhile Table.isNoteRow).reverse, ?_, ?_, ?_, ?_⟩
  · rw [hbody]
    exact hrows
  · intro r hr
    exact List.mem_takeWhile_imp (List.mem_reverse.mp hr)
  · intro r hsome
    rw [hbody, List.getLast?_reverse] at hsome
    have h4 := List.head?_dropWhile_not Table.isNoteRow rows.reverse
    rw [hsome] at h4
    exact h4
  · simp only [Table.extractNotes, List.map_reverse]

/-- C4 witness: the amended statement instantiated at a one-row table whose
    single row is a (first-cell) NOTE row. -/
theorem c4_note_extraction_witness :
    ∃ peeled : List (List String),
      [["NOTE 1", ""]] = (Table.extractNotes [["NOTE 1", ""]]).1 ++ peeled ∧
      (∀ r ∈ peeled, Table.isNoteRow r = true) ∧
      (∀ r, (Table.extractNotes [["NOTE 1", ""]]).1.getLast? = some r →
        Table.isNoteRow r = false) ∧
      (Table.extractNotes [["NOTE 1", ""]]).2 =
        "\n".intercalate (peeled.map (fun r => Table.restoreNoteBreaks (r.headD ""))) :=
  c4_note_extraction [["NOTE 1", ""]]

/-- C1 counterexample: for a table whose primary-key values recur
    non-contiguously (keys A, B, A), the concatenation of the row-group
    chunks' data rows in emission order differs from the full-table body's
    document order, even though no notes are extracted. -/
theorem c1_roundtrip_counterexample :
    Table.rowGroupUnionRows Scenario.c1rows ≠
      (Table.preprocessTable Scenario.c1rows).2.1 ∧
    (Table.preprocessTable Scenario.c1rows).2.2 = "" := by
  decide

theorem groupFold_mem_acc (l : List (List String)) :
    ∀ acc k, k ∈ acc → k ∈ l.foldl Table.groupStep acc := by
  induction l with
  | nil => intro acc k h; simpa using h
  | cons r rs ih =>
    intro acc k h
    simp only [List.foldl_cons]
    apply ih
    simp only [Table.groupStep]
    split
    · exact h
    · exact List.mem_append_left _ h

theorem groupFold_mem_key (l : List (List String)) :
    ∀ (acc : List String) (r : List String), r ∈ l →
      Table.rowKey r ∈ l.foldl Table.groupStep acc := by
  induction l with
  | nil => intro acc r h; simp at h
  | cons x xs ih =>
    intro acc r h
    rcases List.mem_cons.mp h with rfl | h2
    · simp only [List.foldl_cons]
      apply groupFold_mem_acc
      simp only [Table.groupStep]
      split
      · next hmem => exact hmem
      · exact List.mem_append_right _ (List.mem_singleton.mpr rfl)
    · exact ih _ r h2

theorem groupFold_nodup (l : List (List String)) :
    ∀ acc : List String, acc.Nodup → (l.foldl Table.groupStep acc).Nodup := by
  induction l with
  | nil => intro acc h; simpa using h
  | cons x xs ih =>
    intro acc h
    simp only [List.foldl_cons]
    apply ih
    simp only [Table.groupStep]
    split
    · exact h
    · next hnot =>
      exact List.Nodup.append h (List.nodup_singleton _)
        (List.disjoint_singleton.mpr hnot)

theorem groupOrder_nodup (body : List (List String)) :
    (Table.groupOrder body).Nodup :=
  groupFold_nodup body [] List.nodup_nil

theorem mem_groupOrder_of_mem (body : List (List String)) (r : List String)
    (h : r ∈ body) : Table.rowKey r ∈ Table.groupOrder body :=
  groupFold_mem_key body [] r h

theorem groupRows_filter_ne (body : List (List String)) (k ki : String)
    (hne : ki ≠ k) :
    Table.groupRows (body.filter (fun r => !(Table.rowKey r == k))) ki =
      Table.groupRows body ki := by
  induction body with
  | nil => rfl
  | cons r rs ih =>
    by_cases hrk : Table.rowKey r = k
    · have houter : List.filter (fun r => !(Table.rowKey r == k)) (r :: rs) =
          List.filter (fun r => !(Table.rowKey r == k)) rs := by
        rw [List.filter_cons, if_neg (by simp [hrk])]
      have hinner : Table.groupRows (r :: rs) ki = Table.groupRows rs ki := by
        simp only [Table.groupRows]
        rw [List.filter_cons, if_neg ?_]
        simp only [hrk, beq_iff_eq]
        exact fun h => hne h.symm
      rw [houter, hinner]
      exact ih
    · have houter : List.filter (fun r => !(Table.rowKey r == k)) (r :: rs) =
          r :: List.filter (fun r => !(Table.rowKey r == k)) rs := by
        rw [List.filter_cons, if_pos (by simp [hrk])]
      rw [houter]
      simp only [Table.groupRows] at ih ⊢
      by_cases hki : Table.rowKey r = ki
      · rw [List.filter_cons, List.filter_cons,
          if_pos (by simp [hki]), if_pos (by simp [hki]), ih]
      · rw [List.filter_cons, List.filter_cons,
          if_neg (by simp [hki]), if_neg (by simp [hki]), ih]

theorem flatten_groups_perm :
    ∀ (keys : List String) (body : List (List String)), keys.Nodup →
      (∀ r ∈ body, Table.rowKey r ∈ keys) →
      ((keys.map (Table.groupRows body)).flatten).Perm body := by
  intro keys
  induction keys with
  | nil =>
    intro body _ hcov
    have hb : body = [] := by
      cases body with
      | nil => rfl
      | cons r rs => exact absurd (hcov r (List.mem_cons_self r rs)) (List.not_mem_nil _)
    simp [hb]
  | cons k ks ih =>
    intro body hnd hcov
    have hnd' := List.nodup_cons.mp hnd
    simp only [List.map_cons, List.flatten_cons]
    have hperm2 : ((ks.map (Table.groupRows body)).flatten).Perm
        (body.filter (fun r => !(Table.rowKey r == k))) := by
      have hmap : ks.map (Table.groupRows body) =
          ks.map (Table.groupRows (body.filter (fun r => !(Table.rowKey r == k)))) :=
        List.map_congr_left (fun ki hki =>
          (groupRows_filter_ne body k ki (fun he => hnd'.1 (he ▸ hki))).symm)
      rw [hmap]
      apply ih _ hnd'.2
      intro r hr
      rw [List.mem_filter] at hr
      rcases List.mem_cons.mp (hcov r hr.1) with he | hm
      · exact absurd he (by simpa using hr.2)
      · exact hm
    have hfinal := List.filter_append_perm (fun r => Table.rowKey r == k) body
    have h5 : List.Perm
        (Table.groupRows body k ++ (ks.map (Table.groupRows body)).flatten)
        (Table.groupRows body k ++ body.filter (fun r => !(Table.rowKey r == k))) :=
      hperm2.append_left _
    have h6 : List.Perm
        (Table.groupRows body k ++ body.filter (fun r => !(Table.rowKey r == k)))
        body := by
      simpa [Table.groupRows] using hfinal
    exact h5.trans h6

/-- C1 (amended): the union of a table's row-group chunk data rows, taken in
    emission order, is a permutation of the full-table chunk's data rows (the
    same rows with the same multiplicities; document order is preserved only
    when every primary key's occurrences are contiguous). -/
theorem c1_roundtrip_perm (rawRows : List (List (Option String))) :
    (Table.rowGroupUnionRows rawRows).Perm (Table.preprocessTable rawRows).2.1 :=
  flatten_groups_perm (Table.groupOrder (Table.preprocessTable rawRows).2.1)
    (Table.preprocessTable rawRows).2.1
    (groupOrder_nodup _)
    (fun r hr => mem_groupOrder_of_mem _ r hr)


theorem groupFold_all_empty :
    ∀ l : List (List String), (∀ r ∈ l, Table.rowKey r = "") →
      l.foldl Table.groupStep [""] = [""] := by
  intro l
  induction l with
  | nil => intro _; rfl
  | cons x xs ih =>
    intro hx
    simp only [List.foldl_cons]
    rw [show Table.groupStep [""] x = [""] from by
      simp [Table.groupStep, hx x (List.mem_cons_self x xs)]]
    exact ih (fun r hr => hx r (List.mem_cons_of_mem _ hr))

theorem groupOrder_all_empty (body : List (List String)) (hne : body ≠ [])
    (hall : ∀ r ∈ body, Table.rowKey r = "") : Table.groupOrder body = [""] := by
  obtain ⟨r0, rs, rfl⟩ := List.exists_cons_of_ne_nil hne
  simp only [Table.groupOrder, List.foldl_cons]
  rw [show Table.groupStep [] r0 = [""] from by
    simp [Table.groupStep, hall r0 (List.mem_cons_self r0 rs)]]
  exact groupFold_all_empty rs (fun r hr => hall r (List.mem_cons_of_mem _ hr))

theorem map_chunkIndex_enum (f : Nat × String → EMMCChunk)
    (hidx : ∀ gk, (f gk).chunkIndex = gk.1) (l : List String) :
    ((l.enum.map f).map (fun c => c.chunkIndex)) = List.range l.length := by
  rw [List.map_map]
  have h : ∀ gk ∈ l.enum, ((fun c => c.chunkIndex) ∘ f) gk = Prod.fst gk :=
    fun gk _ => hidx gk
  rw [List.map_congr_left h]
  exact List.enum_map_fst _

/-- C7 counterexample: the degenerate zero-column table [[], []] has one body
    row (so one distinct primary-key value, the empty string), yet its merged
    header is empty and `chunk_row_groups` emits no chunk at all, so the claim
    as stated over every table with at least one body row fails. -/
theorem c7_row_group_counterexample :
    (Table.preprocessTable [[], []]).2.1 = [[]] ∧
    Table.groupOrder (Table.preprocessTable [[], []]).2.1 = [""] ∧
    Table.rowGroupChunks [[], []] "" "s" "v" none 1 1 "p" = [] := by
  decide

/-- C7 (amended): for every table whose merged header is non-empty (at least
    one column) and that has at least one body row, `chunk_row_groups` emits
    exactly one row-group chunk per distinct primary-key value in
    first-occurrence order, each a row chunk of table type carrying the given
    parent chunk id, with chunk indices enumerating the emission order; a
    table whose every body row has an empty primary key yields exactly one
    chunk. -/
theorem c7_row_group_emission (rows : List (List (Option String)))
    (caption source version : String) (sec : Option SNode) (ps pe : Nat)
    (parent : String)
    (hheader : (Table.preprocessTable rows).1 ≠ [])
    (hbody : (Table.preprocessTable rows).2.1 ≠ []) :
    (Table.rowGroupChunks rows caption source version sec ps pe parent).length =
      (Table.groupOrder (Table.preprocessTable rows).2.1).length ∧
    (∀ c ∈ Table.rowGroupChunks rows caption source version sec ps pe parent,
      c.parentChunkId = some parent ∧ c.isRowChunk = true ∧
      c.contentType = ContentType.table) ∧
    ((Table.rowGroupChunks rows caption source version sec ps pe parent).map
      (fun c => c.chunkIndex) =
      List.range (Table.groupOrder (Table.preprocessTable rows).2.1).length) ∧
    ((∀ r ∈ (Table.preprocessTable rows).2.1, Table.rowKey r = "") →
      (Table.rowGroupChunks rows caption source version sec ps pe parent).length = 1) := by
  have hrowsne : rows ≠ [] := by
    intro he
    rw [he] at hbody
    exact hbody rfl
  have h1 : ¬ (rows.isEmpty = true) := by
    simpa [List.isEmpty_iff] using hrowsne
  have h2 : ¬ ((Table.preprocessTable rows).1.isEmpty = true ∨
      (Table.preprocessTable rows).2.1.isEmpty = true) := by
    simp [List.isEmpty_iff, hheader, hbody]
  simp only [Table.rowGroupChunks]
  rw [if_neg h1, if_neg h2]
  refine ⟨?_, ?_, ?_, ?_⟩
  · rw [List.length_map, List.enum_length]
  · intro c hc
    rcases List.mem_map.mp hc with ⟨gk, _, rfl⟩
    exact ⟨rfl, rfl, rfl⟩
  · exact map_chunkIndex_enum _ (fun gk => rfl) _
  · intro hall
    rw [List.length_map, List.enum_length, groupOrder_all_empty _ hbody hall]
    rfl

/-- Witness for C7 (amended): a one-column, one-data-row table yields exactly
    one row-group chunk carrying the parent reference. -/
theorem c7_row_group_emission_witness :
    (Table.rowGroupChunks [[some "A"]] "" "s" "v" none 1 1 "parent0").length = 1 ∧
    ((Table.rowGroupChunks [[some "A"]] "" "s" "v" none 1 1 "parent0").headD
      { source := "", version := "", pageStart := 0, pageEnd := 0,
        contentType := ContentType.table, text := "" }).parentChunkId =
      some "parent0" := by
  have h := c7_row_group_emission [[some "A"]] "" "s" "v" none 1 1 "parent0"
    (by decide) (by decide)
  refine ⟨h.1.trans (by decide), ?_⟩
  exact (h.2.1 _ (by decide)).1

theorem domLE_refl (a : SNode) : Structure.domLE a a :=
  Or.inr ⟨rfl, le_refl _⟩

theorem domLE_trans {a b c : SNode} (h1 : Structure.domLE a b)
    (h2 : Structure.domLE b c) : Structure.domLE a c := by
  unfold Structure.domLE at h1 h2 ⊢
  omega

theorem pickBest_none {p : Nat} {acc : Option SNode} {n : SNode}
    (h : Structure.pickBest p acc n = none) :
    acc = none ∧ ¬ Structure.coversP n p := by
  unfold Structure.pickBest at h
  by_cases hc : n.pageStart ≤ p ∧ p ≤ n.pageEnd
  · rw [if_pos hc] at h
    cases acc with
    | none => simp at h
    | some b =>
      dsimp only at h
      split_ifs at h
  · rw [if_neg hc] at h
    exact ⟨h, hc⟩

theorem pickBest_some {p : Nat} {acc : Option SNode} {n s : SNode}
    (h : Structure.pickBest p acc n = some s) :
    (acc = some s ∨ (s = n ∧ Structure.coversP n p)) ∧
    (∀ b, acc = some b → Structure.domLE b s) ∧
    (Structure.coversP n p → Structure.domLE n s) := by
  unfold Structure.pickBest at h
  by_cases hc : n.pageStart ≤ p ∧ p ≤ n.pageEnd
  · rw [if_pos hc] at h
    cases acc with
    | none =>
      have hns : n = s := Option.some.inj h
      subst hns
      refine ⟨Or.inr ⟨rfl, hc⟩, ?_, fun _ => domLE_refl _⟩
      intro b hb
      cases hb
    | some b =>
      dsimp only at h
      by_cases h1 : b.level < n.level
      · rw [if_pos h1] at h
        have hns : n = s := Option.some.inj h
        subst hns
        refine ⟨Or.inr ⟨rfl, hc⟩, ?_, fun _ => domLE_refl _⟩
        intro b' hb'
        cases Option.some.inj hb'
        exact Or.inl h1
      · rw [if_neg h1] at h
        by_cases h2 : n.level = b.level
        · rw [if_pos h2] at h
          by_cases h3 : b.pageStart ≤ n.pageStart
          · rw [if_pos h3] at h
            have hns : n = s := Option.some.inj h
            subst hns
            refine ⟨Or.inr ⟨rfl, hc⟩, ?_, fun _ => domLE_refl _⟩
            intro b' hb'
            cases Option.some.inj hb'
            exact Or.inr ⟨h2.symm, h3⟩
          · rw [if_neg h3] at h
            have hbs : b = s := Option.some.inj h
            subst hbs
            refine ⟨Or.inl rfl, ?_, ?_⟩
            · intro b' hb'
              cases Option.some.inj hb'
              exact domLE_refl _
            · intro _
              exact Or.inr ⟨h2, Nat.le_of_lt (Nat.lt_of_not_le h3)⟩
        · rw [if_neg h2] at h
          have hbs : b = s := Option.some.inj h
          subst hbs
          refine ⟨Or.inl rfl, ?_, ?_⟩
          · intro b' hb'
            cases Option.some.inj hb'
            exact domLE_refl _
          · intro _
            exact Or.inl (by omega)
  · rw [if_neg hc] at h
    refine ⟨Or.inl h, ?_, fun hcc => absurd hcc hc⟩
    intro b hb
    rw [hb] at h
    cases Option.some.inj h
    exact domLE_refl _

theorem bestFold_spec (p : Nat) :
    ∀ (nodes : List SNode) (acc : Option SNode),
      (nodes.foldl (Structure.pickBest p) acc = none →
        acc = none ∧ ∀ n ∈ nodes, ¬ Structure.coversP n p) ∧
      (∀ s, nodes.foldl (Structure.pickBest p) acc = some s →
        (acc = some s ∨ (s ∈ nodes ∧ Structure.coversP s p)) ∧
        (∀ b, acc = some b → Structure.domLE b s) ∧
        (∀ n ∈ nodes, Structure.coversP n p → Structure.domLE n s)) := by
  intro nodes
  induction nodes with
  | nil =>
    intro acc
    constructor
    · intro h
      exact ⟨h, by simp⟩
    · intro s h
      refine ⟨Or.inl h, ?_, by simp⟩
      intro b hb
      rw [hb] at h
      cases Option.some.inj h
      exact domLE_refl _
  | cons x xs ih =>
    intro acc
    simp only [List.foldl_cons]
    constructor
    · intro h
      have hx := (ih (Structure.pickBest p acc x)).1 h
      have hpb := pickBest_none hx.1
      refine ⟨hpb.1, ?_⟩
      intro n hn
      rcases List.mem_cons.mp hn with rfl | h2
      · exact hpb.2
      · exact hx.2 n h2
    · intro s h
      obtain ⟨hsrc, hacc', hcov'⟩ := (ih (Structure.pickBest p acc x)).2 s h
      cases hpb : Structure.pickBest p acc x with
      | none =>
        have hnone := pickBest_none hpb
        refine ⟨?_, ?_, ?_⟩
        · rcases hsrc with he | ⟨hm, hc2⟩
          · rw [hpb] at he
            cases he
          · exact Or.inr ⟨List.mem_cons_of_mem _ hm, hc2⟩
        · intro b hb
          rw [hnone.1] at hb
          cases hb
        · intro n hn hc2
          rcases List.mem_cons.mp hn with rfl | h2
          · exact absurd hc2 hnone.2
          · exact hcov' n h2 hc2
      | some s' =>
        have hps := pickBest_some hpb
        refine ⟨?_, ?_, ?_⟩
        · rcases hsrc with he | ⟨hm, hc2⟩
          · rw [hpb] at he
            cases Option.some.inj he
            rcases hps.1 with ha | ⟨hn, hc3⟩
            · exact Or.inl ha
            · subst hn
              exact Or.inr ⟨List.mem_cons_self _ _, hc3⟩
          · exact Or.inr ⟨List.mem_cons_of_mem _ hm, hc2⟩
        · intro b hb
          exact domLE_trans (hps.2.1 b hb) (hacc' s' hpb)
        · intro n hn hc2
          rcases List.mem_cons.mp hn with rfl | h2
          · exact domLE_trans (hps.2.2 hc2) (hacc' s' hpb)
          · exact hcov' n h2 hc2

/-- C2: for every page in range that the page→section map resolves, the chosen
    node covers the page and dominates every covering node (strictly deeper
    level, or equal level with a later-or-equal page_start); the map is
    defined whenever some node covers the page; and on the spec's tie-break
    scenario TOC, page 22 resolves to "3 Terms and definitions". -/
theorem c2_page_map_deepest_latest :
    (∀ (nodes : List SNode) (total p : Nat) (s : SNode),
      Structure.pageToSection nodes total p = some s →
        s ∈ nodes ∧ Structure.coversP s p ∧
        ∀ n ∈ nodes, Structure.coversP n p → Structure.domLE n s) ∧
    (∀ (nodes : List SNode) (total p : Nat), 1 ≤ p → p ≤ total →
      (∃ n ∈ nodes, Structure.coversP n p) →
      Structure.pageToSection nodes total p ≠ none) ∧
    ((Structure.pageToSection (Structure.buildSections Scenario.scenarioToc 30) 30 22).map
      SNode.label = some "3 Terms and definitions") := by
  refine ⟨?_, ?_, by decide⟩
  · intro nodes total p s h
    unfold Structure.pageToSection Structure.bestSection at h
    by_cases hp : 1 ≤ p ∧ p ≤ total
    · rw [if_pos hp] at h
      obtain ⟨hsrc, -, hcov⟩ := (bestFold_spec p nodes none).2 s h
      rcases hsrc with he | ⟨hm, hc⟩
      · cases he
      · exact ⟨hm, hc, hcov⟩
    · rw [if_neg hp] at h
      cases h
  · rintro nodes total p h1 h2 ⟨n, hn, hc⟩
    unfold Structure.pageToSection Structure.bestSection
    rw [if_pos ⟨h1, h2⟩]
    intro hnone
    exact ((bestFold_spec p nodes none).1 hnone).2 n hn hc

/-- Witness for C2: on the tie-break scenario, the resolved node for page 22
    is a member of the built sections and covers page 22. -/
theorem c2_page_map_deepest_latest_witness :
    ({ level := 1, title := "Terms and definitions", pageStart := 22,
       pageEnd := 22, number := "3", path := ["3"],
       isFrontMatter := false } : SNode) ∈
        Structure.buildSections Scenario.scenarioToc 30 ∧
    Structure.coversP
      { level := 1, title := "Terms and definitions", pageStart := 22,
        pageEnd := 22, number := "3", path := ["3"], isFrontMatter := false }
      22 := by
  have h := c2_page_map_deepest_latest.1
    (Structure.buildSections Scenario.scenarioToc 30) 30 22
    { level := 1, title := "Terms and definitions", pageStart := 22,
      pageEnd := 22, number := "3", path := ["3"], isFrontMatter := false }
    (by decide)
  exact ⟨h.1, h.2.1⟩

theorem inlineFold_fm (source version : String) (sec : Option SNode) (ps : Nat) :
    ∀ (l : List (String × String)) (st : List EMMCChunk × List String),
      (∀ c ∈ st.1, c.isFrontMatter = false) →
      ∀ c ∈ (l.foldl (Definition.inlineStep source version sec ps) st).1,
        c.isFrontMatter = false := by
  intro l
  induction l with
  | nil => intro st h c hc; exact h c hc
  | cons td tds ih =>
    intro st h c hc
    rw [List.foldl_cons] at hc
    refine ih _ ?_ c hc
    intro c' hc'
    simp only [Definition.inlineStep] at hc'
    split_ifs at hc' with hseen
    · exact h c' hc'
    · rcases List.mem_append.mp hc' with hm | hm
      · exact h c' hm
      · rw [List.mem_singleton.mp hm]
        rfl

/-- C10: every definition chunk — from the dedicated-section pass and from
    the inline pass — has is_front_matter = False, and for a definition chunk
    with that flag the searchable-view filter reduces to the content-validity
    check alone, so no definition chunk is ever excluded by the front-matter
    filter. -/
theorem c10_definition_chunks_searchable :
    (∀ (am nm : String → List (String × String)) (text : String) (sec : SNode)
        (src ver : String) (ps pe : Nat),
      ∀ c ∈ Definition.extractFromSection am nm text sec src ver ps pe,
        c.isFrontMatter = false) ∧
    (∀ (pats : List (String → List (String × String))) (text src ver : String)
        (p2s : Nat → Option SNode) (ps : Nat),
      ∀ c ∈ Definition.extractInline pats text src ver p2s ps,
        c.isFrontMatter = false) ∧
    (∀ (noise : String → Bool) (chunks : List EMMCChunk) (c : EMMCChunk),
      c ∈ chunks → c.contentType = ContentType.definition →
      c.isFrontMatter = false →
      (c ∈ Pipeline.searchableChunks noise chunks ↔
        Pipeline.isValidChunk noise c = true)) := by
  refine ⟨?_, ?_, ?_⟩
  · intro am nm text sec src ver ps pe c hc
    unfold Definition.extractFromSection at hc
    split at hc
    · exact absurd hc (List.not_mem_nil c)
    · dsimp only at hc
      split at hc
      · rcases List.mem_map.mp hc with ⟨im, -, rfl⟩
        rfl
      · rcases List.mem_map.mp hc with ⟨im, -, rfl⟩
        rfl
  · intro pats text src ver p2s ps c hc
    unfold Definition.extractInline at hc
    exact inlineFold_fm src ver (p2s ps) ps _ ([], []) (by intro c' hc'; simp at hc')
      c hc
  · intro noise chunks c hc hct hfm
    unfold Pipeline.searchableChunks
    rw [List.mem_filter]
    have hpred : (if c.isFrontMatter then false
        else if c.contentType = ContentType.table ∧ ¬ c.isRowChunk then
          if ¬ Pipeline.isRegSection c then false else Pipeline.isValidChunk noise c
        else Pipeline.isValidChunk noise c) = Pipeline.isValidChunk noise c := by
      rw [if_neg (by simp [hfm]), if_neg (by simp [hct])]
    rw [hpred]
    simp [hc]

/-- Witness for C10: a concrete inline-pass definition chunk is searchable
    exactly when it passes the validity check (with the trivial noise
    predicate, it does). -/
theorem c10_definition_chunks_searchable_witness :
    (Definition.makeDefChunk "HS200" "High Speed 200 MHz interface mode"
        "s" "5.1" none 1 1 0) ∈
      Pipeline.searchableChunks (fun _ => false)
        [Definition.makeDefChunk "HS200" "High Speed 200 MHz interface mode"
          "s" "5.1" none 1 1 0] ↔
    Pipeline.isValidChunk (fun _ => false)
      (Definition.makeDefChunk "HS200" "High Speed 200 MHz interface mode"
        "s" "5.1" none 1 1 0) = true :=
  c10_definition_chunks_searchable.2.2 (fun _ => false) _ _
    (by decide) (by decide) (by decide)

/-- C6: crossing a page boundary inside one section never flushes the text
    accumulator.  If the state after the first page holds accumulated text
    ending with t1 (of plain-text type, in section sec), the next page also
    resolves to sec, and that page's leading classified block is plain text t2
    matching no section label, then after the page entry and that first block
    no chunk has been emitted (so no paragraph split has occurred) and the
    accumulator holds ... t1, t2 adjacent — the two texts are concatenated
    before any split. -/
theorem c6_no_flush_at_page_boundary {α : Type} (env : Pipeline.PipeEnv α)
    (ids : Nat → String) (s : Pipeline.PipeState) (n2 : Nat) (praw : String)
    (t1 t2 : String) (sec : SNode) (pre : List String)
    (hacc : s.textAccumulator = pre ++ [t1])
    (hctype : s.textCtype = ContentType.text)
    (hsec : s.currentSection = some sec)
    (hpage : env.pageToSec n2 = some sec)
    (hnohit : Pipeline.resolveLabel env.labelList (env.normalize t2) = none) :
    (Pipeline.processBlock env ids n2 praw (Pipeline.pageEnter env ids s n2)
        { contentType := ContentType.text, textBlock := some t2 }).allChunks =
      s.allChunks ∧
    (Pipeline.processBlock env ids n2 praw (Pipeline.pageEnter env ids s n2)
        { contentType := ContentType.text, textBlock := some t2 }).textAccumulator =
      pre ++ [t1, t2] := by
  have henter : Pipeline.pageEnter env ids s n2 = s := by
    unfold Pipeline.pageEnter
    rw [hpage, hsec, if_neg (by simp)]
  rw [henter]
  unfold Pipeline.processBlock
  have hdetect : Pipeline.subPageDetect env ids n2 s
      { contentType := ContentType.text, textBlock := some t2 } = s := by
    unfold Pipeline.subPageDetect
    dsimp only
    rw [if_pos rfl, hnohit]
  rw [hdetect]
  have hne : ¬ s.textAccumulator.isEmpty = true := by
    rw [hacc]
    simp
  have hbucket :
      (Pipeline.bucketText s ({ contentType := ContentType.text, textBlock := some t2 } : Pipeline.CBlock α)).allChunks = s.allChunks ∧
      (Pipeline.bucketText s ({ contentType := ContentType.text, textBlock := some t2 } : Pipeline.CBlock α)).textAccumulator = s.textAccumulator ∧
      (Pipeline.bucketText s ({ contentType := ContentType.text, textBlock := some t2 } : Pipeline.CBlock α)).textCtype = s.textCtype := by
    unfold Pipeline.bucketText
    dsimp only
    rw [hsec]
    by_cases hfm : sec.isFrontMatter = true <;> simp [hfm]
  obtain ⟨hb1, hb2, hb3⟩ := hbucket
  unfold Pipeline.routeBlock
  dsimp only
  have hcond1 : ¬ (¬ (Pipeline.bucketText s ({ contentType := ContentType.text, textBlock := some t2 } : Pipeline.CBlock α)).textAccumulator.isEmpty = true ∧
      ContentType.text ≠ (Pipeline.bucketText s ({ contentType := ContentType.text, textBlock := some t2 } : Pipeline.CBlock α)).textCtype) := by
    rintro ⟨-, hne2⟩
    exact hne2 ((hb3.trans hctype).symm)
  rw [if_neg hcond1]
  have hcond2 : ¬ ((Pipeline.bucketText s ({ contentType := ContentType.text, textBlock := some t2 } : Pipeline.CBlock α)).textAccumulator.isEmpty = true) := by
    rw [hb2]
    exact hne
  rw [if_neg hcond2]
  dsimp only
  rw [hb1, hb2, hacc]
  exact ⟨rfl, by rw [List.append_assoc]; rfl⟩

/-- Witness for C6: the spec's cross-page list-continuity scenario — the
    accumulator holding a bare "o Sub-item one" is not flushed at the page
    boundary; the next page's leading text is appended after it. -/
theorem c6_no_flush_at_page_boundary_witness :
    (Pipeline.processBlock Scenario.trivialEnv (fun _ => "id") 2 ""
        (Pipeline.pageEnter Scenario.trivialEnv (fun _ => "id") Scenario.sampleState 2)
        { contentType := ContentType.text, textBlock := some "o Sub-item two" }).allChunks =
      [] ∧
    (Pipeline.processBlock Scenario.trivialEnv (fun _ => "id") 2 ""
        (Pipeline.pageEnter Scenario.trivialEnv (fun _ => "id") Scenario.sampleState 2)
        { contentType := ContentType.text, textBlock := some "o Sub-item two" }).textAccumulator =
      ["o Sub-item one", "o Sub-item two"] :=
  c6_no_flush_at_page_boundary Scenario.trivialEnv (fun _ => "id")
    Scenario.sampleState 2 "" "o Sub-item one" "o Sub-item two"
    Scenario.sampleSection [] rfl rfl rfl rfl rfl

theorem simState_refl (s : Pipeline.PipeState) : Pipeline.SimState s s :=
  ⟨rfl, rfl, rfl, rfl, rfl, rfl, rfl, rfl⟩

theorem assignIds_erase (ids : Nat → String) (ctr : Nat) (cs : List EMMCChunk) :
    (Pipeline.assignIds ids ctr cs).1.map Pipeline.eraseId = cs.map Pipeline.eraseId ∧
    (Pipeline.assignIds ids ctr cs).2 = ctr + cs.length := by
  refine ⟨?_, rfl⟩
  show (cs.enum.map (fun ic => { ic.2 with chunkId := ids (ctr + ic.1) })).map
    Pipeline.eraseId = _
  rw [List.map_map]
  have h : ∀ ic ∈ cs.enum,
      (Pipeline.eraseId ∘ fun ic : Nat × EMMCChunk =>
        { ic.2 with chunkId := ids (ctr + ic.1) }) ic =
      (Pipeline.eraseId ∘ Prod.snd) ic := fun ic _ => rfl
  rw [List.map_congr_left h, ← List.map_map, List.enum_map_snd]

theorem appendChunks_sim (ids1 ids2 : Nat → String) {s1 s2 : Pipeline.PipeState}
    (h : Pipeline.SimState s1 s2) {cs1 cs2 : List EMMCChunk}
    (hc : cs1.map Pipeline.eraseId = cs2.map Pipeline.eraseId) :
    Pipeline.SimState (Pipeline.appendChunks ids1 s1 cs1)
      (Pipeline.appendChunks ids2 s2 cs2) := by
  obtain ⟨h1, h2, h3, h4, h5, h6, h7, h8⟩ := h
  have hlen : cs1.length = cs2.length := by
    have hl := congrArg List.length hc
    simpa using hl
  have e1 := assignIds_erase ids1 s1.idCounter cs1
  have e2 := assignIds_erase ids2 s2.idCounter cs2
  refine ⟨?_, ?_, h3, h4, h5, h6, h7, h8⟩
  · show (s1.allChunks ++ (Pipeline.assignIds ids1 s1.idCounter cs1).1).map
      Pipeline.eraseId = (s2.allChunks ++ (Pipeline.assignIds ids2 s2.idCounter cs2).1).map
      Pipeline.eraseId
    rw [List.map_append, List.map_append, h1, e1.1, e2.1, hc]
  · show (Pipeline.assignIds ids1 s1.idCounter cs1).2 =
      (Pipeline.assignIds ids2 s2.idCounter cs2).2
    rw [e1.2, e2.2, h2, hlen]

theorem flushText_sim {α : Type} (env : Pipeline.PipeEnv α) (ids1 ids2 : Nat → String)
    {s1 s2 : Pipeline.PipeState} (h : Pipeline.SimState s1 s2) :
    Pipeline.SimState (Pipeline.flushText env ids1 s1) (Pipeline.flushText env ids2 s2) := by
  obtain ⟨h1, h2, h3, h4, h5, h6, h7, h8⟩ := h
  unfold Pipeline.flushText
  by_cases hemp : s1.textAccumulator.isEmpty = true
  · rw [if_pos hemp, if_pos (by rw [← h4]; exact hemp)]
    exact ⟨h1, h2, h3, h4, h5, h6, h7, h8⟩
  · rw [if_neg hemp, if_neg (by rw [← h4]; exact hemp)]
    have hcs : env.textChunkSection ("\n".intercalate s1.textAccumulator)
        s1.currentSection s1.accumPageStart s1.accumPageEnd s1.textCtype =
        env.textChunkSection ("\n".intercalate s2.textAccumulator)
        s2.currentSection s2.accumPageStart s2.accumPageEnd s2.textCtype := by
      rw [h4, h5, h6, h7, h8]
  -- marker A
    have happ := appendChunks_sim ids1 ids2
      ⟨h1, h2, h3, h4, h5, h6, h7, h8⟩
      (congrArg (List.map Pipeline.eraseId) hcs)
    obtain ⟨a1, a2, a3, a4, a5, a6, a7, a8⟩ := happ
    exact ⟨a1, a2, a3, rfl, a5, a6, a7, a8⟩

theorem pageEnter_sim {α : Type} (env : Pipeline.PipeEnv α) (ids1 ids2 : Nat → String)
    {s1 s2 : Pipeline.PipeState} (h : Pipeline.SimState s1 s2) (n : Nat) :
    Pipeline.SimState (Pipeline.pageEnter env ids1 s1 n)
      (Pipeline.pageEnter env ids2 s2 n) := by
  obtain ⟨h1, h2, h3, h4, h5, h6, h7, h8⟩ := h
  unfold Pipeline.pageEnter
  dsimp only
  by_cases hcond : env.pageToSec n ≠ s1.currentSection
  · have hcond2 : env.pageToSec n ≠ s2.currentSection := by rw [← h6]; exact hcond
    rw [if_pos hcond, if_pos hcond2]
    by_cases hemp : s1.textAccumulator.isEmpty = true
    · have hemp2 : s2.textAccumulator.isEmpty = true := by rw [← h4]; exact hemp
      rw [if_pos hemp, if_pos hemp2]
      exact ⟨h1, h2, h3, h4, h5, rfl, h7, h8⟩
    · have hemp2 : ¬ s2.textAccumulator.isEmpty = true := by rw [← h4]; exact hemp
      rw [if_neg hemp, if_neg hemp2]
      obtain ⟨a1, a2, a3, a4, a5, a6, a7, a8⟩ :=
        flushText_sim env ids1 ids2 ⟨h1, h2, h3, h4, h5, h6, h7, h8⟩
      exact ⟨a1, a2, a3, a4, a5, rfl, a7, a8⟩
  · have hcond2 : ¬ env.pageToSec n ≠ s2.currentSection := by rw [← h6]; exact hcond
    rw [if_neg hcond, if_neg hcond2]
    exact ⟨h1, h2, h3, h4, h5, h6, h7, h8⟩

theorem rowGroupChunks_erase (rows : List (List (Option String)))
    (caption source version : String) (sec : Option SNode) (ps pe : Nat)
    (p1 p2 : String) :
    (Table.rowGroupChunks rows caption source version sec ps pe p1).map
      Pipeline.eraseId =
    (Table.rowGroupChunks rows caption source version sec ps pe p2).map
      Pipeline.eraseId := by
  unfold Table.rowGroupChunks
  by_cases h1 : rows.isEmpty = true
  · rw [if_pos h1, if_pos h1]
  · rw [if_neg h1, if_neg h1]
    dsimp only
    by_cases h2 : (Table.preprocessTable rows).1.isEmpty = true ∨
        (Table.preprocessTable rows).2.1.isEmpty = true
    · rw [if_pos h2, if_pos h2]
    · rw [if_neg h2, if_neg h2]
      rw [List.map_map, List.map_map]
      exact List.map_congr_left (fun gk _ => rfl)

theorem subPageDetect_sim {α : Type} (env : Pipeline.PipeEnv α)
    (ids1 ids2 : Nat → String) (n : Nat) {s1 s2 : Pipeline.PipeState}
    (h : Pipeline.SimState s1 s2) (cb : Pipeline.CBlock α) :
    Pipeline.SimState (Pipeline.subPageDetect env ids1 n s1 cb)
      (Pipeline.subPageDetect env ids2 n s2 cb) := by
  obtain ⟨h1, h2, h3, h4, h5, h6, h7, h8⟩ := h
  unfold Pipeline.subPageDetect
  cases htb : cb.textBlock with
  | none => exact ⟨h1, h2, h3, h4, h5, h6, h7, h8⟩
  | some t =>
    dsimp only
    by_cases hct : cb.contentType = ContentType.text
    · rw [if_pos hct, if_pos hct]
      cases hres : Pipeline.resolveLabel env.labelList (env.normalize t) with
      | none => exact ⟨h1, h2, h3, h4, h5, h6, h7, h8⟩
      | some hit =>
        dsimp only
        by_cases hne : s1.currentSection ≠ some hit
        · have hne2 : s2.currentSection ≠ some hit := by rw [← h6]; exact hne
          rw [if_pos hne, if_pos hne2]
          by_cases hemp : s1.textAccumulator.isEmpty = true
          · have hemp2 : s2.textAccumulator.isEmpty = true := by rw [← h4]; exact hemp
            rw [if_pos hemp, if_pos hemp2]
            exact ⟨h1, h2, h3, h4, h5, rfl, rfl, h8⟩
          · have hemp2 : ¬ s2.textAccumulator.isEmpty = true := by rw [← h4]; exact hemp
            rw [if_neg hemp, if_neg hemp2]
            obtain ⟨a1, a2, a3, a4, a5, a6, a7, a8⟩ :=
              flushText_sim env ids1 ids2 ⟨h1, h2, h3, h4, h5, h6, h7, h8⟩
            exact ⟨a1, a2, a3, a4, a5, rfl, rfl, a8⟩
        · have hne2 : ¬ s2.currentSection ≠ some hit := by rw [← h6]; exact hne
          rw [if_neg hne, if_neg hne2]
          exact ⟨h1, h2, h3, h4, h5, h6, h7, h8⟩
    · rw [if_neg hct, if_neg hct]
      exact ⟨h1, h2, h3, h4, h5, h6, h7, h8⟩

theorem bucketText_sim {α : Type} {s1 s2 : Pipeline.PipeState}
    (h : Pipeline.SimState s1 s2) (cb : Pipeline.CBlock α) :
    Pipeline.SimState (Pipeline.bucketText s1 cb) (Pipeline.bucketText s2 cb) := by
  obtain ⟨h1, h2, h3, h4, h5, h6, h7, h8⟩ := h
  unfold Pipeline.bucketText
  cases htb : cb.textBlock with
  | none => exact ⟨h1, h2, h3, h4, h5, h6, h7, h8⟩
  | some t =>
    dsimp only
    rw [← h6]
    cases hcs : s1.currentSection with
    | none => exact ⟨h1, h2, h3, h4, h5, h6, h7, h8⟩
    | some sec =>
      dsimp only
      by_cases hfm : ¬ sec.isFrontMatter = true
      · rw [if_pos hfm, if_pos hfm]
        exact ⟨h1, h2, by rw [h3], h4, h5, rfl, h7, h8⟩
      · rw [if_neg hfm, if_neg hfm]
        exact ⟨h1, h2, h3, h4, h5, h6, h7, h8⟩

theorem routeTextBody_sim {α : Type} (env : Pipeline.PipeEnv α)
    (ids1 ids2 : Nat → String) (n : Nat) (ct : ContentType) (tb : Option String)
    {s1 s2 : Pipeline.PipeState} (h : Pipeline.SimState s1 s2) :
    Pipeline.SimState
      (match tb with
       | some t =>
         { (if (if ¬ s1.textAccumulator.isEmpty = true ∧ ct ≠ s1.textCtype then
               Pipeline.flushText env ids1 s1 else s1).textAccumulator.isEmpty = true then
             { (if ¬ s1.textAccumulator.isEmpty = true ∧ ct ≠ s1.textCtype then
                 Pipeline.flushText env ids1 s1 else s1) with
               textCtype := ct, accumPageStart := n }
           else
             { (if ¬ s1.textAccumulator.isEmpty = true ∧ ct ≠ s1.textCtype then
                 Pipeline.flushText env ids1 s1 else s1) with
               textCtype := ct }) with
           textAccumulator :=
             (if (if ¬ s1.textAccumulator.isEmpty = true ∧ ct ≠ s1.textCtype then
                 Pipeline.flushText env ids1 s1 else s1).textAccumulator.isEmpty = true then
               { (if ¬ s1.textAccumulator.isEmpty = true ∧ ct ≠ s1.textCtype then
                   Pipeline.flushText env ids1 s1 else s1) with
                 textCtype := ct, accumPageStart := n }
             else
               { (if ¬ s1.textAccumulator.isEmpty = true ∧ ct ≠ s1.textCtype then
                   Pipeline.flushText env ids1 s1 else s1) with
                 textCtype := ct }).textAccumulator ++ [t],
           accumPageEnd := n }
       | none =>
         { (if ¬ s1.textAccumulator.isEmpty = true ∧ ct ≠ s1.textCtype then
             Pipeline.flushText env ids1 s1 else s1) with textCtype := ct })
      (match tb with
       | some t =>
         { (if (if ¬ s2.textAccumulator.isEmpty = true ∧ ct ≠ s2.textCtype then
               Pipeline.flushText env ids2 s2 else s2).textAccumulator.isEmpty = true then
             { (if ¬ s2.textAccumulator.isEmpty = true ∧ ct ≠ s2.textCtype then
                 Pipeline.flushText env ids2 s2 else s2) with
               textCtype := ct, accumPageStart := n }
           else
             { (if ¬ s2.textAccumulator.isEmpty = true ∧ ct ≠ s2.textCtype then
                 Pipeline.flushText env ids2 s2 else s2) with
               textCtype := ct }) with
           textAccumulator :=
             (if (if ¬ s2.textAccumulator.isEmpty = true ∧ ct ≠ s2.textCtype then
                 Pipeline.flushText env ids2 s2 else s2).textAccumulator.isEmpty = true then
               { (if ¬ s2.textAccumulator.isEmpty = true ∧ ct ≠ s2.textCtype then
                   Pipeline.flushText env ids2 s2 else s2) with
                 textCtype := ct, accumPageStart := n }
             else
               { (if ¬ s2.textAccumulator.isEmpty = true ∧ ct ≠ s2.textCtype then
                   Pipeline.flushText env ids2 s2 else s2) with
                 textCtype := ct }).textAccumulator ++ [t],
           accumPageEnd := n }
       | none =>
         { (if ¬ s2.textAccumulator.isEmpty = true ∧ ct ≠ s2.textCtype then
             Pipeline.flushText env ids2 s2 else s2) with textCtype := ct }) := by
  obtain ⟨h1, h2, h3, h4, h5, h6, h7, h8⟩ := h
  have h3s : Pipeline.SimState
      (if ¬ s1.textAccumulator.isEmpty = true ∧ ct ≠ s1.textCtype then
        Pipeline.flushText env ids1 s1 else s1)
      (if ¬ s2.textAccumulator.isEmpty = true ∧ ct ≠ s2.textCtype then
        Pipeline.flushText env ids2 s2 else s2) := by
    by_cases hc : ¬ s1.textAccumulator.isEmpty = true ∧ ct ≠ s1.textCtype
    · have hc2 : ¬ s2.textAccumulator.isEmpty = true ∧ ct ≠ s2.textCtype := by
        rw [← h4, ← h5]; exact hc
      rw [if_pos hc, if_pos hc2]
      exact flushText_sim env ids1 ids2 ⟨h1, h2, h3, h4, h5, h6, h7, h8⟩
    · have hc2 : ¬ (¬ s2.textAccumulator.isEmpty = true ∧ ct ≠ s2.textCtype) := by
        rw [← h4, ← h5]; exact hc
      rw [if_neg hc, if_neg hc2]
      exact ⟨h1, h2, h3, h4, h5, h6, h7, h8⟩
  obtain ⟨a1, a2, a3, a4, a5, a6, a7, a8⟩ := h3s
  cases tb with
  | none => exact ⟨a1, a2, a3, a4, rfl, a6, a7, a8⟩
  | some t =>
    dsimp only
    by_cases hemp :
        (if ¬ s1.textAccumulator.isEmpty = true ∧ ct ≠ s1.textCtype then
          Pipeline.flushText env ids1 s1 else s1).textAccumulator.isEmpty = true
    · have hemp2 : (if ¬ s2.textAccumulator.isEmpty = true ∧ ct ≠ s2.textCtype then
          Pipeline.flushText env ids2 s2 else s2).textAccumulator.isEmpty = true := by
        rw [← a4]; exact hemp
      rw [if_pos hemp, if_pos hemp2]
      exact ⟨a1, a2, a3, congrArg (fun l => l ++ [t]) a4, rfl, a6, rfl, rfl⟩
    · have hemp2 : ¬ (if ¬ s2.textAccumulator.isEmpty = true ∧ ct ≠ s2.textCtype then
          Pipeline.flushText env ids2 s2 else s2).textAccumulator.isEmpty = true := by
        rw [← a4]; exact hemp
      rw [if_neg hemp, if_neg hemp2]
      exact ⟨a1, a2, a3, congrArg (fun l => l ++ [t]) a4, rfl, a6, a7, rfl⟩

theorem routeBlock_sim {α : Type} (env : Pipeline.PipeEnv α)
    (ids1 ids2 : Nat → String) (n : Nat) (praw : String)
    {s1 s2 : Pipeline.PipeState} (h : Pipeline.SimState s1 s2)
    (cb : Pipeline.CBlock α) :
    Pipeline.SimState (Pipeline.routeBlock env ids1 n praw s1 cb)
      (Pipeline.routeBlock env ids2 n praw s2 cb) := by
  obtain ⟨h1, h2, h3, h4, h5, h6, h7, h8⟩ := h
  have hsim : Pipeline.SimState s1 s2 := ⟨h1, h2, h3, h4, h5, h6, h7, h8⟩
  unfold Pipeline.routeBlock
  cases hct : cb.contentType
  case definition => exact hsim
  case text => exact routeTextBody_sim env ids1 ids2 n ContentType.text cb.textBlock hsim
  case register => exact routeTextBody_sim env ids1 ids2 n ContentType.register cb.textBlock hsim
  case table =>
    dsimp only
    obtain ⟨a1, a2, a3, a4, a5, a6, a7, a8⟩ := flushText_sim env ids1 ids2 hsim
    cases htbl : cb.tableBlock with
    | none => exact ⟨a1, a2, a3, a4, a5, a6, a7, a8⟩
    | some rows =>
      dsimp only
      have htcs : Table.tableChunk rows (env.findCaption praw) env.source env.version
          (Pipeline.flushText env ids1 s1).currentSection n n =
          Table.tableChunk rows (env.findCaption praw) env.source env.version
          (Pipeline.flushText env ids2 s2).currentSection n n := by
        rw [a6]
      have e1 := assignIds_erase ids1 (Pipeline.flushText env ids1 s1).idCounter
        (Table.tableChunk rows (env.findCaption praw) env.source env.version
          (Pipeline.flushText env ids1 s1).currentSection n n)
      have e2 := assignIds_erase ids2 (Pipeline.flushText env ids2 s2).idCounter
        (Table.tableChunk rows (env.findCaption praw) env.source env.version
          (Pipeline.flushText env ids2 s2).currentSection n n)
      have haceq : (Pipeline.assignIds ids1 (Pipeline.flushText env ids1 s1).idCounter
          (Table.tableChunk rows (env.findCaption praw) env.source env.version
            (Pipeline.flushText env ids1 s1).currentSection n n)).1.map Pipeline.eraseId =
          (Pipeline.assignIds ids2 (Pipeline.flushText env ids2 s2).idCounter
          (Table.tableChunk rows (env.findCaption praw) env.source env.version
            (Pipeline.flushText env ids2 s2).currentSection n n)).1.map Pipeline.eraseId := by
        rw [e1.1, e2.1, htcs]
      have hctr : (Pipeline.assignIds ids1 (Pipeline.flushText env ids1 s1).idCounter
          (Table.tableChunk rows (env.findCaption praw) env.source env.version
            (Pipeline.flushText env ids1 s1).currentSection n n)).2 =
          (Pipeline.assignIds ids2 (Pipeline.flushText env ids2 s2).idCounter
          (Table.tableChunk rows (env.findCaption praw) env.source env.version
            (Pipeline.flushText env ids2 s2).currentSection n n)).2 := by
        rw [e1.2, e2.2, a2, htcs]
      cases hac1 : (Pipeline.assignIds ids1 (Pipeline.flushText env ids1 s1).idCounter
          (Table.tableChunk rows (env.findCaption praw) env.source env.version
            (Pipeline.flushText env ids1 s1).currentSection n n)).1 with
      | nil =>
        have hac2 : (Pipeline.assignIds ids2 (Pipeline.flushText env ids2 s2).idCounter
            (Table.tableChunk rows (env.findCaption praw) env.source env.version
              (Pipeline.flushText env ids2 s2).currentSection n n)).1 = [] := by
          have h0 := haceq
          rw [hac1] at h0
          exact List.map_eq_nil_iff.mp h0.symm
        rw [hac2]
        have hnil1 : ((Pipeline.flushText env ids1 s1).allChunks ++
            ([] : List EMMCChunk)).map Pipeline.eraseId =
            ((Pipeline.flushText env ids2 s2).allChunks ++
            ([] : List EMMCChunk)).map Pipeline.eraseId := by
          rw [List.append_nil, List.append_nil]
          exact a1
        exact ⟨hnil1, hctr, a3, a4, a5, a6, a7, a8⟩
      | cons c0 rest =>
        have hcons : ∃ c0' rest',
            (Pipeline.assignIds ids2 (Pipeline.flushText env ids2 s2).idCounter
              (Table.tableChunk rows (env.findCaption praw) env.source env.version
                (Pipeline.flushText env ids2 s2).currentSection n n)).1 =
              c0' :: rest' := by
          cases hac2 : (Pipeline.assignIds ids2 (Pipeline.flushText env ids2 s2).idCounter
              (Table.tableChunk rows (env.findCaption praw) env.source env.version
                (Pipeline.flushText env ids2 s2).currentSection n n)).1 with
          | nil =>
            have h0 := haceq
            rw [hac1, hac2] at h0
            simp at h0
          | cons x xs => exact ⟨x, xs, rfl⟩
        obtain ⟨c0', rest', hac2⟩ := hcons
        rw [hac2]
        have hs4 : Pipeline.SimState
            { Pipeline.flushText env ids1 s1 with
                allChunks := (Pipeline.flushText env ids1 s1).allChunks ++ (c0 :: rest),
                idCounter := (Pipeline.assignIds ids1
                    (Pipeline.flushText env ids1 s1).idCounter
                    (Table.tableChunk rows (env.findCaption praw) env.source env.version
                      (Pipeline.flushText env ids1 s1).currentSection n n)).2 }
            { Pipeline.flushText env ids2 s2 with
                allChunks := (Pipeline.flushText env ids2 s2).allChunks ++ (c0' :: rest'),
                idCounter := (Pipeline.assignIds ids2
                    (Pipeline.flushText env ids2 s2).idCounter
                    (Table.tableChunk rows (env.findCaption praw) env.source env.version
                      (Pipeline.flushText env ids2 s2).currentSection n n)).2 } := by
          refine ⟨?_, hctr, a3, a4, a5, a6, a7, a8⟩
          show ((Pipeline.flushText env ids1 s1).allChunks ++
            (c0 :: rest)).map Pipeline.eraseId = _
          rw [← hac1, ← hac2, List.map_append, List.map_append, a1, haceq]
        apply appendChunks_sim ids1 ids2 hs4
        show (Table.rowGroupChunks rows (env.findCaption praw) env.source env.version
            (Pipeline.flushText env ids1 s1).currentSection n n c0.chunkId).map
            Pipeline.eraseId = _
        rw [a6]
        exact rowGroupChunks_erase rows (env.findCaption praw) env.source env.version
          (Pipeline.flushText env ids2 s2).currentSection n n c0.chunkId c0'.chunkId
  case figure =>
    dsimp only
    have hf := flushText_sim env ids1 ids2 hsim
    obtain ⟨a1, a2, a3, a4, a5, a6, a7, a8⟩ := hf
    cases hfp : cb.figPayload with
    | none => exact ⟨a1, a2, a3, a4, a5, a6, a7, a8⟩
    | some p =>
      dsimp only
      rw [← a6]
      cases hfc : env.figChunk p n (Pipeline.flushText env ids1 s1).currentSection with
      | none => exact ⟨a1, a2, a3, a4, a5, a6, a7, a8⟩
      | some c =>
        exact appendChunks_sim ids1 ids2 ⟨a1, a2, a3, a4, a5, a6, a7, a8⟩ rfl
  case bitmap =>
    dsimp only
    have hf := flushText_sim env ids1 ids2 hsim
    obtain ⟨a1, a2, a3, a4, a5, a6, a7, a8⟩ := hf
    cases hfp : cb.imgPayload with
    | none => exact ⟨a1, a2, a3, a4, a5, a6, a7, a8⟩
    | some p =>
      dsimp only
      rw [← a6]
      cases hfc : env.bmpChunk p n (Pipeline.flushText env ids1 s1).currentSection with
      | none => exact ⟨a1, a2, a3, a4, a5, a6, a7, a8⟩
      | some c =>
        exact appendChunks_sim ids1 ids2 ⟨a1, a2, a3, a4, a5, a6, a7, a8⟩ rfl

theorem processBlock_sim {α : Type} (env : Pipeline.PipeEnv α)
    (ids1 ids2 : Nat → String) (n : Nat) (praw : String)
    {s1 s2 : Pipeline.PipeState} (h : Pipeline.SimState s1 s2)
    (cb : Pipeline.CBlock α) :
    Pipeline.SimState (Pipeline.processBlock env ids1 n praw s1 cb)
      (Pipeline.processBlock env ids2 n praw s2 cb) :=
  routeBlock_sim env ids1 ids2 n praw
    (bucketText_sim (subPageDetect_sim env ids1 ids2 n h cb) cb) cb

theorem foldl_sim {β : Type} (f1 f2 : Pipeline.PipeState → β → Pipeline.PipeState)
    (hstep : ∀ {s1 s2 : Pipeline.PipeState} (b : β), Pipeline.SimState s1 s2 →
      Pipeline.SimState (f1 s1 b) (f2 s2 b)) :
    ∀ (l : List β) {s1 s2 : Pipeline.PipeState}, Pipeline.SimState s1 s2 →
      Pipeline.SimState (l.foldl f1 s1) (l.foldl f2 s2) := by
  intro l
  induction l with
  | nil => intro s1 s2 h; exact h
  | cons b bs ih =>
    intro s1 s2 h
    exact ih (hstep b h)

theorem processPage_sim {α : Type} (env : Pipeline.PipeEnv α)
    (ids1 ids2 : Nat → String) {s1 s2 : Pipeline.PipeState}
    (h : Pipeline.SimState s1 s2) (page : Pipeline.PageIn α) :
    Pipeline.SimState (Pipeline.processPage env ids1 s1 page)
      (Pipeline.processPage env ids2 s2 page) := by
  unfold Pipeline.processPage
  exact foldl_sim _ _
    (fun cb hs => processBlock_sim env ids1 ids2 page.pageNum page.rawText hs cb)
    page.blocks (pageEnter_sim env ids1 ids2 h page.pageNum)

theorem round1Step_sim {α : Type} (env : Pipeline.PipeEnv α)
    (ids1 ids2 : Nat → String) {s1 s2 : Pipeline.PipeState}
    (h : Pipeline.SimState s1 s2) (sec : SNode) :
    Pipeline.SimState (Pipeline.round1Step env ids1 s1 sec)
      (Pipeline.round1Step env ids2 s2 sec) := by
  obtain ⟨h1, h2, h3, h4, h5, h6, h7, h8⟩ := h
  unfold Pipeline.round1Step
  by_cases hfm : ¬ sec.isFrontMatter = true
  · rw [if_pos hfm, if_pos hfm]
    dsimp only
    rw [← h3]
    exact appendChunks_sim ids1 ids2 ⟨h1, h2, h3, h4, h5, h6, h7, h8⟩ rfl
  · rw [if_neg hfm, if_neg hfm]
    exact ⟨h1, h2, h3, h4, h5, h6, h7, h8⟩

/-- C9: two runs of the pipeline on the same input (same environment and
    pages) with different id supplies yield the same chunk list after erasing
    the id-valued fields — content, section attribution, and classification
    agree chunk for chunk; only chunk_id (and the parent reference, which
    stores the parent's chunk_id) differ. -/
theorem c9_idempotence_modulo_ids {α : Type} (env : Pipeline.PipeEnv α)
    (pages : List (Pipeline.PageIn α)) (ids1 ids2 : Nat → String) :
    (Pipeline.runPipeline env ids1 pages).map Pipeline.eraseId =
    (Pipeline.runPipeline env ids2 pages).map Pipeline.eraseId := by
  unfold Pipeline.runPipeline
  have hpages := foldl_sim _ _
    (fun page hs => processPage_sim env ids1 ids2 hs page)
    pages (simState_refl Pipeline.initState)
  have hflush := flushText_sim env ids1 ids2 hpages
  have hround := foldl_sim _ _
    (fun sec hs => round1Step_sim env ids1 ids2 hs sec)
    env.sections hflush
  exact hround.1

/-- Witness for C9: instantiated on the trivial environment with one empty
    page and two distinct id supplies. -/
theorem c9_idempotence_modulo_ids_witness :
    (Pipeline.runPipeline Scenario.trivialEnv (fun n => toString n)
        [{ pageNum := 1, rawText := "", blocks := [] }]).map Pipeline.eraseId =
    (Pipeline.runPipeline Scenario.trivialEnv (fun n => toString (n + 7))
        [{ pageNum := 1, rawText := "", blocks := [] }]).map Pipeline.eraseId :=
  c9_idempotence_modulo_ids Scenario.trivialEnv
    [{ pageNum := 1, rawText := "", blocks := [] }]
    (fun n => toString n) (fun n => toString (n + 7))

/-- Witness for C5: a 1x1 table is accepted (at most 8 columns). -/
theorem c5_plausibility_filter_witness :
    Parser.isPlausibleTable [[some "x"]] = true ↔
      (Table.maxColCount [[some "x"]] ≤ 8 ∨
        (Parser.rowFilledCount ([[some "x"]].headD []) ≠ 1 ∧
         Parser.rowFilledCount ([[some "x"]].getLastD []) ≠ 1 ∧
         2 * ([[some "x"]].map List.length).sum ≤
           5 * ([[some "x"]].map Parser.rowFilledCount).sum)) :=
  c5_plausibility_filter [[some "x"]] (by decide)

end EMMC
